import Mathlib

/-!
Shallow embedding of the XR traffic source / receiver pair of the NASCX
repository (src/simu5g-1.3.0/src/apps/xr/XRTrafficSource.cc and the
XRTrafficReceiver implementation).  C++ doubles are modelled as exact
rationals, std::map<int, ReceivedFrameStats> as an association list with
unique keys, and the single-threaded event callbacks as pure state
transformers.
-/

namespace NASCX

/-- Mirrors struct ReceivedFrameStats of XRTrafficReceiver.h. -/
structure ReceivedFrameStats where
  frameNumber : Int
  pcaComponents : Int
  mse : ℚ
  sizeBytes : Int
  genTime : ℚ
  recvTime : ℚ
  delay : ℚ
  receivedOnTime : Bool
  effectiveError : ℚ
  fragmentsReceived : Int
  totalFragments : Int
  deriving Repr, DecidableEq

/-- Mirrors the XRHeader message fields (XRHeader_m.h) set in
XRTrafficSource::sendPacket and read in XRTrafficReceiver::processFrame. -/
structure XRHeader where
  frameNumber : Int
  pcaComponents : Int
  mse : ℚ
  sizeBytes : Int
  genTime : ℚ
  fragIndex : Int
  totalFragments : Int
  deriving Repr, DecidableEq

/-- The receiver's map<int, ReceivedFrameStats> receivedFrames, as an
association list with at most one entry per key. -/
abbrev FrameMap := List (Int × ReceivedFrameStats)

/-- receivedFrames.find(k): first entry with key k. -/
def findFrame (m : FrameMap) (k : Int) : Option ReceivedFrameStats :=
  match m with
  | [] => none
  | (k', v) :: rest => if k' = k then some v else findFrame rest k

/-- receivedFrames[k] = v: overwrite the entry for k, or append it. -/
def insertFrame (m : FrameMap) (k : Int) (v : ReceivedFrameStats) : FrameMap :=
  match m with
  | [] => [(k, v)]
  | (k', v') :: rest =>
      if k' = k then (k, v) :: rest else (k', v') :: insertFrame rest k v

/-- The record created on the first fragment of a frame
(processFrame, first branch): delay = -1 marks the frame incomplete,
effectiveError defaults to the fixed penalty 1000. -/
def freshStats (hdr : XRHeader) (recvTime : ℚ) : ReceivedFrameStats :=
  { frameNumber := hdr.frameNumber
    pcaComponents := hdr.pcaComponents
    mse := hdr.mse
    sizeBytes := hdr.sizeBytes
    genTime := hdr.genTime
    recvTime := recvTime
    delay := -1
    receivedOnTime := false
    effectiveError := 1000
    fragmentsReceived := 1
    totalFragments := hdr.totalFragments }

/-- The completion update of processFrame: delay in ms from the arriving
fragment's genTime, on-time iff delay <= deadlineMs, effectiveError = the
arriving fragment's mse if on-time else the fixed penalty 1000. -/
def completeStats (deadlineMs recvTime : ℚ) (hdr : XRHeader)
    (s : ReceivedFrameStats) : ReceivedFrameStats :=
  let delay : ℚ := (recvTime - hdr.genTime) * 1000
  { s with
    delay := delay
    receivedOnTime := decide (delay ≤ deadlineMs)
    effectiveError := if delay ≤ deadlineMs then hdr.mse else 1000 }

/-- XRTrafficReceiver::processFrame, as a transformer of receivedFrames.
First fragment of a frame creates a record with fragmentsReceived = 1;
a further fragment increments fragmentsReceived; when the count equals the
arriving header's totalFragments the completion update runs. -/
def processFrame (deadlineMs recvTime : ℚ) (hdr : XRHeader) (m : FrameMap) :
    FrameMap :=
  let m1 :=
    match findFrame m hdr.frameNumber with
    | none => insertFrame m hdr.frameNumber (freshStats hdr recvTime)
    | some s =>
        insertFrame m hdr.frameNumber
          { s with fragmentsReceived := s.fragmentsReceived + 1 }
  match findFrame m1 hdr.frameNumber with
  | none => m1
  | some s =>
      if s.fragmentsReceived = hdr.totalFragments then
        insertFrame m1 hdr.frameNumber (completeStats deadlineMs recvTime hdr s)
      else m1

/-- A receiver run: fold processFrame over a list of (header, receive time)
arrivals, starting from an empty receivedFrames map. -/
def runReceiver (deadlineMs : ℚ) (arrivals : List (XRHeader × ℚ)) : FrameMap :=
  arrivals.foldl (fun m p => processFrame deadlineMs p.2 p.1 m) []

/-- The synthesized record of XRTrafficReceiver::detectLostFrames for a
frame number never seen: delay = -1, not on time, penalty error. -/
def lostFrameStats (i : Int) : ReceivedFrameStats :=
  { frameNumber := i
    pcaComponents := 0
    mse := 0
    sizeBytes := 0
    genTime := 0
    recvTime := 0
    delay := -1
    receivedOnTime := false
    effectiveError := 1000
    fragmentsReceived := 0
    totalFragments := 0 }

/-- The loop of detectLostFrames for i = 1..n: insert a lost record at
every absent frame number. -/
def detectLostAux (m : FrameMap) : ℕ → FrameMap
  | 0 => m
  | n + 1 =>
      let acc := detectLostAux m n
      let i : Int := (n : Int) + 1
      match findFrame acc i with
      | some _ => acc
      | none => insertFrame acc i (lostFrameStats i)

/-- XRTrafficReceiver::detectLostFrames: for i in [1, expectedTotalFrames],
synthesize a lost record when no record exists. -/
def detectLostFrames (expectedTotalFrames : Int) (m : FrameMap) : FrameMap :=
  detectLostAux m expectedTotalFrames.toNat

/-- The value std::map operator[] default-constructs when a key is absent
(all fields zero / false). -/
def defaultStats : ReceivedFrameStats :=
  { frameNumber := 0
    pcaComponents := 0
    mse := 0
    sizeBytes := 0
    genTime := 0
    recvTime := 0
    delay := 0
    receivedOnTime := false
    effectiveError := 0
    fragmentsReceived := 0
    totalFragments := 0 }

/-- Running counters of the loop in computeAndRecordQoE. -/
structure QoETotals where
  receivedCount : Int
  onTimeCount : Int
  lateCount : Int
  lostCount : Int
  sumError : ℚ
  sumDelay : ℚ
  deriving Repr, DecidableEq

/-- One iteration of the aggregation loop of computeAndRecordQoE. -/
def qoeStep (t : QoETotals) (s : ReceivedFrameStats) : QoETotals :=
  let t1 := { t with sumError := t.sumError + s.effectiveError }
  if 0 ≤ s.delay then
    let t2 := { t1 with
      receivedCount := t1.receivedCount + 1
      sumDelay := t1.sumDelay + s.delay }
    if s.receivedOnTime then { t2 with onTimeCount := t2.onTimeCount + 1 }
    else { t2 with lateCount := t2.lateCount + 1 }
  else { t1 with lostCount := t1.lostCount + 1 }

/-- The sequence of records the loop of computeAndRecordQoE visits:
receivedFrames[i] for i = 1..expectedTotalFrames. -/
def statsSeq (expectedTotalFrames : Int) (m : FrameMap) :
    List ReceivedFrameStats :=
  (List.range expectedTotalFrames.toNat).map
    (fun (j : ℕ) => (findFrame m ((j : Int) + 1)).getD defaultStats)

/-- The counters after the aggregation loop of computeAndRecordQoE. -/
def qoeTotals (expectedTotalFrames : Int) (m : FrameMap) : QoETotals :=
  (statsSeq expectedTotalFrames m).foldl qoeStep ⟨0, 0, 0, 0, 0, 0⟩

/-- The derived per-user metrics of computeAndRecordQoE. -/
structure QoEMetrics where
  totalFrames : Int
  receivedCount : Int
  onTimeCount : Int
  lateCount : Int
  lostCount : Int
  sumError : ℚ
  meanError : ℚ
  deliveryFraction : ℚ
  onTimeFraction : ℚ
  lossFraction : ℚ
  avgDelay : ℚ
  delayReliability : ℚ
  userSatisfied : Bool
  deriving Repr, DecidableEq

/-- The metric computation of computeAndRecordQoE (deliveryFraction,
onTimeFraction, lossFraction embed the C++ deliveryRatio / onTimeRatio /
lossRatio locals). -/
def qoeMetrics (expectedTotalFrames : Int) (reliabilityThreshold : ℚ)
    (m : FrameMap) : QoEMetrics :=
  let t := qoeTotals expectedTotalFrames m
  let n : ℚ := (expectedTotalFrames : ℚ)
  let meanError := if 0 < expectedTotalFrames then t.sumError / n else 0
  let onTimeFraction := (t.onTimeCount : ℚ) / n
  let avgDelay :=
    if 0 < t.receivedCount then t.sumDelay / (t.receivedCount : ℚ) else 0
  { totalFrames := expectedTotalFrames
    receivedCount := t.receivedCount
    onTimeCount := t.onTimeCount
    lateCount := t.lateCount
    lostCount := t.lostCount
    sumError := t.sumError
    meanError := meanError
    deliveryFraction := (t.receivedCount : ℚ) / n
    onTimeFraction := onTimeFraction
    lossFraction := (t.lostCount : ℚ) / n
    avgDelay := avgDelay
    delayReliability := onTimeFraction
    userSatisfied := decide (reliabilityThreshold ≤ onTimeFraction) }

/-- The per-instance receiver state used by the teardown path. -/
structure ReceiverInst where
  receivedFrames : FrameMap
  expectedTotalFrames : Int
  deadlineMs : ℚ
  reliabilityThreshold : ℚ
  qoeComputed : Bool
  deriving Repr, DecidableEq

/-- The static (process-wide) variables of XRTrafficReceiver. -/
structure Globals where
  totalSumError : ℚ
  totalExpectedFrames : Int
  totalOnTimeFrames : Int
  totalSatisfiedUsers : Int
  userCount : Int
  finishedCount : Int
  globalStatsPrinted : Bool
  deriving Repr, DecidableEq

/-- XRTrafficReceiver::computeAndRecordQoE.  Early-returns when
receivedFrames is empty.  The qoeComputed guard protects the three
additions totalSumError / totalExpectedFrames / totalOnTimeFrames; the
totalSatisfiedUsers increment sits outside the guard, exactly as in the
source. -/
def computeAndRecordQoE (r : ReceiverInst) (g : Globals) :
    ReceiverInst × Globals :=
  if r.receivedFrames.isEmpty then (r, g)
  else
    let mtr := qoeMetrics r.expectedTotalFrames r.reliabilityThreshold
      r.receivedFrames
    let rg :=
      if r.qoeComputed then (r, g)
      else
        ({ r with qoeComputed := true },
         { g with
            totalSumError := g.totalSumError + mtr.sumError
            totalExpectedFrames := g.totalExpectedFrames + mtr.totalFrames
            totalOnTimeFrames := g.totalOnTimeFrames + mtr.onTimeCount })
    let g2 :=
      if mtr.userSatisfied then
        { rg.2 with totalSatisfiedUsers := rg.2.totalSatisfiedUsers + 1 }
      else rg.2
    (rg.1, g2)

/-- The teardown pair detectLostFrames(); computeAndRecordQoE(); as run by
handleStopOperation and by finish. -/
def teardown (r : ReceiverInst) (g : Globals) : ReceiverInst × Globals :=
  let r1 := { r with
    receivedFrames := detectLostFrames r.expectedTotalFrames r.receivedFrames }
  computeAndRecordQoE r1 g

/-- The global summary row written to global_qoe.csv when the completion
barrier fires. -/
structure GlobalSummary where
  numUsers : Int
  satisfiedUsers : Int
  globalAvgMeanError : ℚ
  globalDelayReliability : ℚ
  totalFrames : Int
  totalOnTimeFrames : Int
  deriving Repr, DecidableEq

/-- XRTrafficReceiver::finish: teardown, then finishedCount++, then the
barrier check; when finishedCount equals userCount and the summary was not
printed yet, the global summary is emitted and the printed flag set. -/
def finishReceiver (r : ReceiverInst) (g : Globals) :
    ReceiverInst × Globals × Option GlobalSummary :=
  let rg := teardown r g
  let g1 : Globals := { rg.2 with finishedCount := rg.2.finishedCount + 1 }
  if (g1.finishedCount == g1.userCount) && !g1.globalStatsPrinted then
    let gm : ℚ :=
      if 0 < g1.totalExpectedFrames then
        g1.totalSumError / (g1.totalExpectedFrames : ℚ)
      else 0
    let gr : ℚ :=
      if 0 < g1.totalExpectedFrames then
        (g1.totalOnTimeFrames : ℚ) / (g1.totalExpectedFrames : ℚ)
      else 0
    (rg.1, { g1 with globalStatsPrinted := true },
     some
       { numUsers := g1.userCount
         satisfiedUsers := g1.totalSatisfiedUsers
         globalAvgMeanError := gm
         globalDelayReliability := gr
         totalFrames := g1.totalExpectedFrames
         totalOnTimeFrames := g1.totalOnTimeFrames })
  else (rg.1, g1, none)

/-- Run finish on each receiver instance in order, collecting the summary
(if any) each finish emits. -/
def runFinishes (g : Globals) : List ReceiverInst →
    Globals × List (Option GlobalSummary)
  | [] => (g, [])
  | r :: rs =>
      let step := finishReceiver r g
      let rest := runFinishes step.2.1 rs
      (rest.1, step.2.2 :: rest.2)

/-- The static variables at the start of a run with n configured receiver
instances (userCount is incremented once per instance in initialize). -/
def initGlobals (n : Int) : Globals :=
  { totalSumError := 0
    totalExpectedFrames := 0
    totalOnTimeFrames := 0
    totalSatisfiedUsers := 0
    userCount := n
    finishedCount := 0
    globalStatsPrinted := false }

/-- The per-user metrics an instance reaches at teardown (after its lost
frames are synthesized). -/
def finalMetrics (r : ReceiverInst) : QoEMetrics :=
  qoeMetrics r.expectedTotalFrames r.reliabilityThreshold
    (detectLostFrames r.expectedTotalFrames r.receivedFrames)

/-- Sum over a list of receiver instances of the per-instance sumError
each one folds into totalSumError at teardown. -/
def contribSumError (rs : List ReceiverInst) : ℚ :=
  (rs.map (fun r => (finalMetrics r).sumError)).sum

/-- Sum of the expectedTotalFrames contributions. -/
def contribExpected (rs : List ReceiverInst) : Int :=
  (rs.map (fun r => r.expectedTotalFrames)).sum

/-- Sum of the onTimeCount contributions. -/
def contribOnTime (rs : List ReceiverInst) : Int :=
  (rs.map (fun r => (finalMetrics r).onTimeCount)).sum

/-- Number of satisfied instances among rs. -/
def contribSatisfied (rs : List ReceiverInst) : Int :=
  (rs.map (fun r =>
    if (finalMetrics r).userSatisfied then (1 : Int) else 0)).sum

/-- The global summary the barrier emits when the instances rs have folded
into the globals g: totals are g's counters plus the per-instance
contributions, with the same zero-guard on the divisions as finish. -/
def summaryOf (g : Globals) (rs : List ReceiverInst) : GlobalSummary :=
  { numUsers := g.userCount
    satisfiedUsers := g.totalSatisfiedUsers + contribSatisfied rs
    globalAvgMeanError :=
      if 0 < g.totalExpectedFrames + contribExpected rs then
        (g.totalSumError + contribSumError rs) /
          ((g.totalExpectedFrames + contribExpected rs : Int) : ℚ)
      else 0
    globalDelayReliability :=
      if 0 < g.totalExpectedFrames + contribExpected rs then
        ((g.totalOnTimeFrames + contribOnTime rs : Int) : ℚ) /
          ((g.totalExpectedFrames + contribExpected rs : Int) : ℚ)
      else 0
    totalFrames := g.totalExpectedFrames + contribExpected rs
    totalOnTimeFrames := g.totalOnTimeFrames + contribOnTime rs }

/-- Mirrors struct FrameInfo of XRTrafficSource.h (one catalog row). -/
structure FrameInfo where
  frame_number : Int
  components : Int
  mse : ℚ
  size_bytes : Int
  deriving Repr, DecidableEq

/-- The fragment-size loop of XRTrafficSource::sendPacket: k fragments of
size min(remaining, maxPayloadSize) each. -/
def fragSizesAux (maxPayloadSize : ℕ) : ℕ → ℕ → List ℕ
  | _, 0 => []
  | remaining, k + 1 =>
      min remaining maxPayloadSize ::
        fragSizesAux maxPayloadSize (remaining - min remaining maxPayloadSize) k

/-- totalFragments = (sizeBytes + maxPayloadSize - 1) / maxPayloadSize. -/
def numFragments (sizeBytes maxPayloadSize : ℕ) : ℕ :=
  (sizeBytes + maxPayloadSize - 1) / maxPayloadSize

/-- The payload sizes sendPacket emits for one frame. -/
def fragmentSizes (sizeBytes maxPayloadSize : ℕ) : List ℕ :=
  fragSizesAux maxPayloadSize sizeBytes (numFragments sizeBytes maxPayloadSize)

/-- The (header, payload size) pairs sendPacket emits for one frame: every
header carries the whole-frame sizeBytes and the same totalFragments, and
fragIndex counts 0, 1, .. totalFragments-1. -/
def frameFragments (fi : FrameInfo) (maxPayloadSize : ℕ) (genTimeNow : ℚ) :
    List (XRHeader × ℕ) :=
  let t := numFragments fi.size_bytes.toNat maxPayloadSize
  List.zipWith
    (fun (idx : ℕ) (sz : ℕ) =>
      ({ frameNumber := fi.frame_number
         pcaComponents := fi.components
         mse := fi.mse
         sizeBytes := fi.size_bytes
         genTime := genTimeNow
         fragIndex := (idx : Int)
         totalFragments := (t : Int) } , sz))
    (List.range t) (fragmentSizes fi.size_bytes.toNat maxPayloadSize)

/-- The generator state relevant to one timer firing: the frame_number
cursor into the catalog and whether the socket is open.  The socket state
cannot change inside one callback (single-threaded event loop). -/
structure GeneratorState where
  frame_number : ℕ
  socketOpen : Bool
  deriving Repr, DecidableEq

/-- XRTrafficSource::sendPacket at one timer firing.  With the socket open
all fragments of the current frame are emitted and frame_number is
incremented; with the socket closed the per-fragment isOpen check fails on
the first fragment and the early return skips the emission and the
frame_number increment. -/
def sendPacket (frames : List FrameInfo) (maxPayloadSize : ℕ) (genTimeNow : ℚ)
    (st : GeneratorState) : GeneratorState × List (XRHeader × ℕ) :=
  match frames.get? st.frame_number with
  | none => (st, [])
  | some fi =>
      if st.socketOpen then
        ({ st with frame_number := st.frame_number + 1 },
         frameFragments fi maxPayloadSize genTimeNow)
      else (st, [])

/-- XRTrafficSource::scheduleNextPacket schedules the timer again iff
frame_number has not reached the catalog size. -/
def schedulesNext (frames : List FrameInfo) (st : GeneratorState) : Bool :=
  decide (st.frame_number < frames.length)

/-- The redraw loop of XRTrafficSource::tran_gau_num.  The C++ loop redraws
while the sample is out of range and attempts < 1000; fuel = 1000 - attempts,
and draws idx is the sample the idx-th call of normal() returns. -/
def tgnLoop (draws : ℕ → ℚ) (minv maxv : ℚ) : ℚ → ℕ → ℕ → ℚ
  | x, 0, _ => x
  | x, fuel + 1, idx =>
      if x < minv ∨ x > maxv then
        tgnLoop draws minv maxv (draws idx) fuel (idx + 1)
      else x

/-- XRTrafficSource::tran_gau_num: initial draw, bounded redraw loop, then
the final hard clamp to [minv, maxv]. -/
def tran_gau_num (draws : ℕ → ℚ) (minv maxv : ℚ) : ℚ :=
  let x := tgnLoop draws minv maxv (draws 0) 1000 1
  let x1 := if x < minv then minv else x
  if x1 > maxv then maxv else x1

/-- Classification "received on time" of a final frame record. -/
def classifiedOnTime (s : ReceivedFrameStats) : Prop :=
  0 ≤ s.delay ∧ s.receivedOnTime = true

/-- Classification "received late" of a final frame record. -/
def classifiedLate (s : ReceivedFrameStats) : Prop :=
  0 ≤ s.delay ∧ s.receivedOnTime = false

/-- Classification "lost" of a final frame record (the delay < 0 branch of
the aggregation loop). -/
def classifiedLost (s : ReceivedFrameStats) : Prop :=
  s.delay < 0

/-- The field discipline every record reachable through processFrame obeys:
an on-time record carries a nonnegative delay and effectiveError equal to
its stored reconstruction error; a record not (yet) on time carries the
fixed penalty 1000. -/
def statsWellFormed (s : ReceivedFrameStats) : Prop :=
  (s.receivedOnTime = true → 0 ≤ s.delay ∧ s.effectiveError = s.mse) ∧
  (s.receivedOnTime = false → s.effectiveError = 1000)

/-! ### Association-list map lemmas -/

theorem findFrame_insert_self (m : FrameMap) (k : Int) (v : ReceivedFrameStats) :
    findFrame (insertFrame m k v) k = some v := by
  induction m with
  | nil => simp [insertFrame, findFrame]
  | cons p rest ih =>
      obtain ⟨k', v'⟩ := p
      by_cases hk : k' = k
      · simp [insertFrame, findFrame, hk]
      · simp [insertFrame, findFrame, hk, ih]

theorem findFrame_insert_ne (m : FrameMap) (k k' : Int) (v : ReceivedFrameStats)
    (h : k' ≠ k) : findFrame (insertFrame m k v) k' = findFrame m k' := by
  have hkk : ¬(k = k') := Ne.symm h
  induction m with
  | nil => simp [insertFrame, findFrame, hkk]
  | cons p rest ih =>
      obtain ⟨k0, v0⟩ := p
      by_cases hk : k0 = k
      · subst hk
        simp [insertFrame, findFrame, hkk]
      · simp [insertFrame, findFrame, hk, ih]

theorem insertFrame_ne_nil (m : FrameMap) (k : Int) (v : ReceivedFrameStats) :
    insertFrame m k v ≠ [] := by
  cases m with
  | nil => simp [insertFrame]
  | cons p rest =>
      obtain ⟨k0, v0⟩ := p
      by_cases hk : k0 = k <;> simp [insertFrame, hk]

theorem findFrame_isSome_ne_nil (m : FrameMap) (k : Int)
    (h : (findFrame m k).isSome = true) : m ≠ [] := by
  intro hm
  subst hm
  simp [findFrame] at h

/-! ### processFrame: effect on the map -/

theorem processFrame_find_ne (deadlineMs recvTime : ℚ) (hdr : XRHeader)
    (m : FrameMap) (k : Int) (hk : k ≠ hdr.frameNumber) :
    findFrame (processFrame deadlineMs recvTime hdr m) k = findFrame m k := by
  unfold processFrame
  cases h0 : findFrame m hdr.frameNumber with
  | none =>
      simp only [h0]
      cases h1 : findFrame (insertFrame m hdr.frameNumber
        (freshStats hdr recvTime)) hdr.frameNumber with
      | none => simp [findFrame_insert_ne _ _ _ _ hk]
      | some s =>
          by_cases hc : s.fragmentsReceived = hdr.totalFragments
          · simp [hc, findFrame_insert_ne _ _ _ _ hk]
          · simp [hc, findFrame_insert_ne _ _ _ _ hk]
  | some s0 =>
      simp only [h0]
      cases h1 : findFrame (insertFrame m hdr.frameNumber
        { s0 with fragmentsReceived := s0.fragmentsReceived + 1 })
        hdr.frameNumber with
      | none => simp [findFrame_insert_ne _ _ _ _ hk]
      | some s =>
          by_cases hc : s.fragmentsReceived = hdr.totalFragments
          · simp [hc, findFrame_insert_ne _ _ _ _ hk]
          · simp [hc, findFrame_insert_ne _ _ _ _ hk]

/-- The record processFrame leaves at the arriving fragment's frame number
when the frame was not seen yet: the fresh record, completed when the
header declares totalFragments = 1. -/
theorem processFrame_find_self_none (deadlineMs recvTime : ℚ) (hdr : XRHeader)
    (m : FrameMap) (h0 : findFrame m hdr.frameNumber = none) :
    findFrame (processFrame deadlineMs recvTime hdr m) hdr.frameNumber =
      some (if (freshStats hdr recvTime).fragmentsReceived =
              hdr.totalFragments then
              completeStats deadlineMs recvTime hdr (freshStats hdr recvTime)
            else freshStats hdr recvTime) := by
  unfold processFrame
  simp only [h0]
  rw [findFrame_insert_self]
  by_cases hc : (freshStats hdr recvTime).fragmentsReceived =
    hdr.totalFragments
  · simp [hc, findFrame_insert_self]
  · simp [hc, findFrame_insert_self]

/-- The record processFrame leaves at the arriving fragment's frame number
when a record exists: fragmentsReceived is incremented, and the completion
update runs when the new count equals the header's totalFragments. -/
theorem processFrame_find_self_some (deadlineMs recvTime : ℚ) (hdr : XRHeader)
    (m : FrameMap) (s0 : ReceivedFrameStats)
    (h0 : findFrame m hdr.frameNumber = some s0) :
    findFrame (processFrame deadlineMs recvTime hdr m) hdr.frameNumber =
      some (if s0.fragmentsReceived + 1 = hdr.totalFragments then
              completeStats deadlineMs recvTime hdr
                { s0 with fragmentsReceived := s0.fragmentsReceived + 1 }
            else { s0 with fragmentsReceived := s0.fragmentsReceived + 1 }) := by
  unfold processFrame
  simp only [h0]
  rw [findFrame_insert_self]
  by_cases hc : s0.fragmentsReceived + 1 = hdr.totalFragments
  · simp [hc, findFrame_insert_self]
  · simp [hc, findFrame_insert_self]

/-! ### detectLostFrames: full characterization -/

theorem detectLostAux_step (m : FrameMap) (n : ℕ) (i : Int) :
    findFrame (detectLostAux m (n + 1)) i =
      if i = (n : Int) + 1 then
        some ((findFrame (detectLostAux m n) i).getD (lostFrameStats i))
      else findFrame (detectLostAux m n) i := by
  simp only [detectLostAux]
  cases hacc : findFrame (detectLostAux m n) ((n : Int) + 1) with
  | some s =>
      simp only [hacc]
      by_cases hi : i = (n : Int) + 1
      · subst hi
        simp [hacc]
      · simp [hi]
  | none =>
      simp only [hacc]
      by_cases hi : i = (n : Int) + 1
      · subst hi
        simp [hacc, findFrame_insert_self]
      · simp [hi, findFrame_insert_ne _ _ _ _ hi]

theorem detectLostAux_find (m : FrameMap) (n : ℕ) (i : Int) :
    findFrame (detectLostAux m n) i =
      if 1 ≤ i ∧ i ≤ (n : Int) then
        some ((findFrame m i).getD (lostFrameStats i))
      else findFrame m i := by
  induction n with
  | zero =>
      have h0 : ¬(1 ≤ i ∧ i ≤ (0 : Int)) := by rintro ⟨h1, h2⟩; omega
      simp [detectLostAux, h0]
  | succ n ih =>
      rw [detectLostAux_step, ih]
      by_cases hi : i = (n : Int) + 1
      · subst hi
        have hnot : ¬(1 ≤ (n : Int) + 1 ∧ (n : Int) + 1 ≤ (n : Int)) := by
          rintro ⟨h1, h2⟩; omega
        have hcond : 1 ≤ (n : Int) + 1 ∧ (n : Int) + 1 ≤ ((n + 1 : ℕ) : Int) := by
          constructor <;> omega
        simp [hnot, hcond]
      · by_cases hc : 1 ≤ i ∧ i ≤ (n : Int)
        · rw [if_neg hi, if_pos hc, if_pos ⟨hc.1, by omega⟩]
        · rw [if_neg hi, if_neg hc, if_neg
            (by push_neg at hc ⊢; intro h1; have := hc h1; omega)]

theorem detectLostFrames_find (N : Int) (m : FrameMap) (i : Int) :
    findFrame (detectLostFrames N m) i =
      if 1 ≤ i ∧ i ≤ N then some ((findFrame m i).getD (lostFrameStats i))
      else findFrame m i := by
  unfold detectLostFrames
  rw [detectLostAux_find]
  by_cases hc : 1 ≤ i ∧ i ≤ N
  · rw [if_pos ⟨hc.1, by omega⟩, if_pos hc]
  · rw [if_neg (by push_neg at hc ⊢; intro h1; have := hc h1; omega), if_neg hc]

/-! ### The aggregation loop of computeAndRecordQoE -/

theorem qoeStep_sum3 (t : QoETotals) (s : ReceivedFrameStats) :
    (qoeStep t s).onTimeCount + (qoeStep t s).lateCount +
      (qoeStep t s).lostCount =
      t.onTimeCount + t.lateCount + t.lostCount + 1 := by
  unfold qoeStep
  by_cases hd : 0 ≤ s.delay
  · cases ho : s.receivedOnTime <;> simp [hd, ho] <;> ring
  · simp [hd]
    ring

theorem qoeStep_sumError (t : QoETotals) (s : ReceivedFrameStats) :
    (qoeStep t s).sumError = t.sumError + s.effectiveError := by
  unfold qoeStep
  by_cases hd : 0 ≤ s.delay
  · cases ho : s.receivedOnTime <;> simp [hd, ho]
  · simp [hd]

theorem qoeStep_receivedCount (t : QoETotals) (s : ReceivedFrameStats) :
    (qoeStep t s).receivedCount =
      t.receivedCount + (if 0 ≤ s.delay then 1 else 0) := by
  unfold qoeStep
  by_cases hd : 0 ≤ s.delay
  · cases ho : s.receivedOnTime <;> simp [hd, ho]
  · simp [hd]

theorem qoeStep_sumDelay (t : QoETotals) (s : ReceivedFrameStats) :
    (qoeStep t s).sumDelay =
      t.sumDelay + (if 0 ≤ s.delay then s.delay else 0) := by
  unfold qoeStep
  by_cases hd : 0 ≤ s.delay
  · cases ho : s.receivedOnTime <;> simp [hd, ho]
  · simp [hd]

theorem qoeStep_onTimeCount (t : QoETotals) (s : ReceivedFrameStats) :
    (qoeStep t s).onTimeCount =
      t.onTimeCount +
        (if 0 ≤ s.delay ∧ s.receivedOnTime = true then 1 else 0) := by
  unfold qoeStep
  by_cases hd : 0 ≤ s.delay
  · cases ho : s.receivedOnTime <;> simp [hd, ho]
  · simp [hd]

theorem qoeFold_sum3 (ss : List ReceivedFrameStats) (t : QoETotals) :
    (ss.foldl qoeStep t).onTimeCount + (ss.foldl qoeStep t).lateCount +
      (ss.foldl qoeStep t).lostCount =
      t.onTimeCount + t.lateCount + t.lostCount + (ss.length : Int) := by
  induction ss generalizing t with
  | nil => simp
  | cons s rest ih =>
      simp only [List.foldl_cons, List.length_cons]
      rw [ih, qoeStep_sum3]
      push_cast
      ring

theorem qoeFold_sumError (ss : List ReceivedFrameStats) (t : QoETotals) :
    (ss.foldl qoeStep t).sumError =
      t.sumError + ((ss.map (fun s => s.effectiveError)).sum) := by
  induction ss generalizing t with
  | nil => simp
  | cons s rest ih =>
      simp only [List.foldl_cons, List.map_cons, List.sum_cons]
      rw [ih, qoeStep_sumError]
      ring

theorem qoeFold_receivedCount (ss : List ReceivedFrameStats) (t : QoETotals) :
    (ss.foldl qoeStep t).receivedCount =
      t.receivedCount +
        (((ss.filter (fun s => decide (0 ≤ s.delay))).length : ℕ) : Int) := by
  induction ss generalizing t with
  | nil => simp
  | cons s rest ih =>
      simp only [List.foldl_cons, List.filter_cons]
      rw [ih, qoeStep_receivedCount]
      by_cases hd : 0 ≤ s.delay
      · simp [hd]
        ring
      · simp [hd]

theorem qoeFold_sumDelay (ss : List ReceivedFrameStats) (t : QoETotals) :
    (ss.foldl qoeStep t).sumDelay =
      t.sumDelay +
        (((ss.filter (fun s => decide (0 ≤ s.delay))).map
          (fun s => s.delay)).sum) := by
  induction ss generalizing t with
  | nil => simp
  | cons s rest ih =>
      simp only [List.foldl_cons, List.filter_cons]
      rw [ih, qoeStep_sumDelay]
      by_cases hd : 0 ≤ s.delay
      · simp [hd]
        ring
      · simp [hd]

theorem qoeFold_onTimeCount (ss : List ReceivedFrameStats) (t : QoETotals) :
    (ss.foldl qoeStep t).onTimeCount =
      t.onTimeCount +
        (((ss.filter (fun s =>
          decide (0 ≤ s.delay) && s.receivedOnTime)).length : ℕ) : Int) := by
  induction ss generalizing t with
  | nil => simp
  | cons s rest ih =>
      simp only [List.foldl_cons, List.filter_cons]
      rw [ih, qoeStep_onTimeCount]
      by_cases hd : 0 ≤ s.delay
      · cases ho : s.receivedOnTime
        · simp [hd, ho]
        · simp [hd, ho]
          ring
      · simp [hd]

theorem statsSeq_length (N : Int) (m : FrameMap) :
    (statsSeq N m).length = N.toNat := by
  unfold statsSeq
  rw [List.length_map, List.length_range]

theorem qoeTotals_sum3 (N : Int) (m : FrameMap) :
    (qoeTotals N m).onTimeCount + (qoeTotals N m).lateCount +
      (qoeTotals N m).lostCount = (N.toNat : Int) := by
  unfold qoeTotals
  rw [qoeFold_sum3, statsSeq_length]
  simp

/-! ### Well-formedness of records through a receiver run -/

theorem processFrame_wellFormed (deadlineMs recvTime : ℚ) (hdr : XRHeader)
    (m : FrameMap) (mseF : Int → ℚ)
    (hhdr : hdr.mse = mseF hdr.frameNumber) (hrt : hdr.genTime ≤ recvTime)
    (hm : ∀ k s, findFrame m k = some s → s.mse = mseF k ∧ statsWellFormed s) :
    ∀ k s, findFrame (processFrame deadlineMs recvTime hdr m) k = some s →
      s.mse = mseF k ∧ statsWellFormed s := by
  intro k s hfind
  have hdelay : (0 : ℚ) ≤ (recvTime - hdr.genTime) * 1000 := by
    have : (0 : ℚ) ≤ recvTime - hdr.genTime := by linarith
    positivity
  by_cases hk : k = hdr.frameNumber
  · subst hk
    cases h0 : findFrame m hdr.frameNumber with
    | none =>
        rw [processFrame_find_self_none _ _ _ _ h0] at hfind
        simp only [Option.some.injEq] at hfind
        subst hfind
        by_cases hc : (freshStats hdr recvTime).fragmentsReceived =
          hdr.totalFragments
        · rw [if_pos hc]
          constructor
          · simp [completeStats, freshStats, hhdr]
          · constructor
            · intro hot
              simp only [completeStats, freshStats] at hot ⊢
              rw [decide_eq_true_iff] at hot
              simp [hot, hdelay, hhdr]
            · intro hot
              simp only [completeStats, freshStats] at hot ⊢
              rw [decide_eq_false_iff_not] at hot
              simp [hot]
        · rw [if_neg hc]
          refine ⟨by simp [freshStats, hhdr], ?_, ?_⟩
          · intro hot
            simp [freshStats] at hot
          · intro hot
            simp [freshStats]
    | some s0 =>
        obtain ⟨hmse0, hwf0⟩ := hm hdr.frameNumber s0 h0
        rw [processFrame_find_self_some _ _ _ _ _ h0] at hfind
        simp only [Option.some.injEq] at hfind
        subst hfind
        by_cases hc : s0.fragmentsReceived + 1 = hdr.totalFragments
        · rw [if_pos hc]
          constructor
          · simp [completeStats, hmse0]
          · constructor
            · intro hot
              simp only [completeStats] at hot ⊢
              rw [decide_eq_true_iff] at hot
              simp only [hot, if_pos]
              refine ⟨hdelay, ?_⟩
              rw [hhdr, hmse0]
            · intro hot
              simp only [completeStats] at hot ⊢
              rw [decide_eq_false_iff_not] at hot
              simp [hot]
        · rw [if_neg hc]
          refine ⟨hmse0, ?_, ?_⟩
          · intro hot
            exact hwf0.1 hot
          · intro hot
            exact hwf0.2 hot
  · rw [processFrame_find_ne _ _ _ _ _ hk] at hfind
    exact hm k s hfind

theorem runReceiver_wellFormed (deadlineMs : ℚ)
    (arrivals : List (XRHeader × ℚ)) (mseF : Int → ℚ)
    (hcons : ∀ p ∈ arrivals, p.1.mse = mseF p.1.frameNumber)
    (hclock : ∀ p ∈ arrivals, p.1.genTime ≤ p.2) :
    ∀ k s, findFrame (runReceiver deadlineMs arrivals) k = some s →
      s.mse = mseF k ∧ statsWellFormed s := by
  unfold runReceiver
  have hgen : ∀ (l : List (XRHeader × ℚ)) (m : FrameMap),
      (∀ p ∈ l, p.1.mse = mseF p.1.frameNumber) →
      (∀ p ∈ l, p.1.genTime ≤ p.2) →
      (∀ k s, findFrame m k = some s → s.mse = mseF k ∧ statsWellFormed s) →
      ∀ k s, findFrame (l.foldl
        (fun m p => processFrame deadlineMs p.2 p.1 m) m) k = some s →
        s.mse = mseF k ∧ statsWellFormed s := by
    intro l
    induction l with
    | nil => intro m _ _ hm; exact hm
    | cons p rest ih =>
        intro m hc1 hc2 hm
        simp only [List.foldl_cons]
        refine ih _ (fun q hq => hc1 q (List.mem_cons_of_mem _ hq))
          (fun q hq => hc2 q (List.mem_cons_of_mem _ hq)) ?_
        exact processFrame_wellFormed _ _ _ _ _
          (hc1 p (List.mem_cons_self _ _)) (hc2 p (List.mem_cons_self _ _))
          hm
  intro k s
  refine hgen arrivals [] hcons hclock ?_ k s
  intro k' s' hfind
  simp [findFrame] at hfind

/-! ### Key uniqueness: receivedFrames is a map -/

theorem findFrame_eq_none_iff (m : FrameMap) (k : Int) :
    findFrame m k = none ↔ k ∉ m.map Prod.fst := by
  induction m with
  | nil => simp [findFrame]
  | cons p rest ih =>
      obtain ⟨k0, v0⟩ := p
      by_cases hk : k0 = k
      · subst hk
        simp [findFrame]
      · simp [findFrame, hk, ih, Ne.symm hk]

theorem mem_keys_insertFrame (m : FrameMap) (k j : Int)
    (v : ReceivedFrameStats)
    (h : j ∈ (insertFrame m k v).map Prod.fst) :
    j ∈ m.map Prod.fst ∨ j = k := by
  induction m with
  | nil =>
      simp [insertFrame] at h
      exact Or.inr h
  | cons p rest ih =>
      obtain ⟨k0, v0⟩ := p
      by_cases hk : k0 = k
      · subst hk
        simp [insertFrame] at h
        rcases h with h | h
        · exact Or.inr h
        · exact Or.inl (by simp [h])
      · simp only [insertFrame, if_neg hk, List.map_cons, List.mem_cons] at h
        rcases h with h | h
        · exact Or.inl (by simp [h])
        · rcases ih h with h' | h'
          · exact Or.inl (by simp; right; simpa using h')
          · exact Or.inr h'

theorem keys_nodup_insertFrame (m : FrameMap) (k : Int)
    (v : ReceivedFrameStats) (h : (m.map Prod.fst).Nodup) :
    ((insertFrame m k v).map Prod.fst).Nodup := by
  induction m with
  | nil => simp [insertFrame]
  | cons p rest ih =>
      obtain ⟨k0, v0⟩ := p
      simp only [List.map_cons, List.nodup_cons] at h
      by_cases hk : k0 = k
      · subst hk
        have hins : insertFrame ((k0, v0) :: rest) k0 v = (k0, v) :: rest := by
          simp [insertFrame]
        rw [hins]
        simp only [List.map_cons, List.nodup_cons]
        exact h
      · simp only [insertFrame, if_neg hk, List.map_cons, List.nodup_cons]
        refine ⟨?_, ih h.2⟩
        intro hmem
        rcases mem_keys_insertFrame _ _ _ _ hmem with h' | h'
        · exact h.1 h'
        · exact hk h'

theorem keys_nodup_processFrame (deadlineMs recvTime : ℚ) (hdr : XRHeader)
    (m : FrameMap) (h : (m.map Prod.fst).Nodup) :
    ((processFrame deadlineMs recvTime hdr m).map Prod.fst).Nodup := by
  unfold processFrame
  cases h0 : findFrame m hdr.frameNumber with
  | none =>
      simp only [h0]
      cases h1 : findFrame (insertFrame m hdr.frameNumber
        (freshStats hdr recvTime)) hdr.frameNumber with
      | none => exact keys_nodup_insertFrame _ _ _ h
      | some s =>
          by_cases hc : s.fragmentsReceived = hdr.totalFragments
          · simp only [hc, if_pos]
            exact keys_nodup_insertFrame _ _ _
              (keys_nodup_insertFrame _ _ _ h)
          · simp only [hc, if_neg, ite_false]
            exact keys_nodup_insertFrame _ _ _ h
  | some s0 =>
      simp only [h0]
      cases h1 : findFrame (insertFrame m hdr.frameNumber
        { s0 with fragmentsReceived := s0.fragmentsReceived + 1 })
        hdr.frameNumber with
      | none => exact keys_nodup_insertFrame _ _ _ h
      | some s =>
          by_cases hc : s.fragmentsReceived = hdr.totalFragments
          · simp only [hc, if_pos]
            exact keys_nodup_insertFrame _ _ _
              (keys_nodup_insertFrame _ _ _ h)
          · simp only [hc, if_neg, ite_false]
            exact keys_nodup_insertFrame _ _ _ h

theorem keys_nodup_runReceiver (deadlineMs : ℚ)
    (arrivals : List (XRHeader × ℚ)) :
    ((runReceiver deadlineMs arrivals).map Prod.fst).Nodup := by
  unfold runReceiver
  have hgen : ∀ (l : List (XRHeader × ℚ)) (m : FrameMap),
      (m.map Prod.fst).Nodup →
      ((l.foldl (fun m p => processFrame deadlineMs p.2 p.1 m) m).map
        Prod.fst).Nodup := by
    intro l
    induction l with
    | nil => intro m hm; exact hm
    | cons p rest ih =>
        intro m hm
        simp only [List.foldl_cons]
        exact ih _ (keys_nodup_processFrame _ _ _ _ hm)
  exact hgen arrivals [] (by simp)

theorem keys_nodup_detectLostAux (m : FrameMap) (n : ℕ)
    (h : (m.map Prod.fst).Nodup) :
    ((detectLostAux m n).map Prod.fst).Nodup := by
  induction n with
  | zero => exact h
  | succ n ih =>
      simp only [detectLostAux]
      cases hacc : findFrame (detectLostAux m n) ((n : Int) + 1) with
      | some s => exact ih
      | none => exact keys_nodup_insertFrame _ _ _ ih

theorem keys_nodup_detectLostFrames (N : Int) (m : FrameMap)
    (h : (m.map Prod.fst).Nodup) :
    ((detectLostFrames N m).map Prod.fst).Nodup :=
  keys_nodup_detectLostAux m N.toNat h

theorem countP_key_eq_zero (m : FrameMap) (k : Int)
    (h : k ∉ m.map Prod.fst) :
    m.countP (fun p => decide (p.1 = k)) = 0 := by
  rw [List.countP_eq_zero]
  intro p hp
  simp only [decide_eq_true_iff]
  intro hk
  exact h (by simp; exact ⟨p.2, by rw [← hk]; exact (by simpa using hp)⟩)

theorem countP_key_eq_one (m : FrameMap) (k : Int) (s : ReceivedFrameStats)
    (hnod : (m.map Prod.fst).Nodup) (hfind : findFrame m k = some s) :
    m.countP (fun p => decide (p.1 = k)) = 1 := by
  induction m with
  | nil => simp [findFrame] at hfind
  | cons p rest ih =>
      obtain ⟨k0, v0⟩ := p
      simp only [List.map_cons, List.nodup_cons] at hnod
      by_cases hk : k0 = k
      · subst hk
        rw [List.countP_cons]
        simp only [decide_eq_true_iff]
        have h0 : rest.countP (fun p => decide (p.1 = k0)) = 0 :=
          countP_key_eq_zero rest k0 hnod.1
        simp [h0]
      · simp only [findFrame, if_neg hk] at hfind
        rw [List.countP_cons]
        have := ih hnod.2 hfind
        simp [this, hk]

/-! ### detectLostFrames preserves well-formedness -/

theorem lostFrameStats_wellFormed (i : Int) :
    statsWellFormed (lostFrameStats i) := by
  constructor
  · intro hot
    simp [lostFrameStats] at hot
  · intro _
    simp [lostFrameStats]

theorem detectLostFrames_wellFormed (N : Int) (m : FrameMap)
    (hm : ∀ k s, findFrame m k = some s → statsWellFormed s) :
    ∀ k s, findFrame (detectLostFrames N m) k = some s → statsWellFormed s := by
  intro k s hfind
  rw [detectLostFrames_find] at hfind
  by_cases hc : 1 ≤ k ∧ k ≤ N
  · rw [if_pos hc] at hfind
    cases h0 : findFrame m k with
    | none =>
        rw [h0] at hfind
        simp only [Option.getD_none, Option.some.injEq] at hfind
        subst hfind
        exact lostFrameStats_wellFormed k
    | some s0 =>
        rw [h0] at hfind
        simp only [Option.getD_some, Option.some.injEq] at hfind
        subst hfind
        exact hm k s0 h0
  · rw [if_neg hc] at hfind
    exact hm k s hfind

/-! ### Claim C1 -/

theorem classification_exclusive (s : ReceivedFrameStats) :
    (classifiedOnTime s ∧ ¬classifiedLate s ∧ ¬classifiedLost s) ∨
    (¬classifiedOnTime s ∧ classifiedLate s ∧ ¬classifiedLost s) ∨
    (¬classifiedOnTime s ∧ ¬classifiedLate s ∧ classifiedLost s) := by
  unfold classifiedOnTime classifiedLate classifiedLost
  rcases le_or_lt 0 s.delay with hd | hd
  · cases ho : s.receivedOnTime
    · refine Or.inr (Or.inl ⟨?_, ⟨hd, rfl⟩, not_lt.mpr hd⟩)
      simp [ho]
    · refine Or.inl ⟨⟨hd, rfl⟩, ?_, not_lt.mpr hd⟩
      simp [ho]
  · refine Or.inr (Or.inr ⟨?_, ?_, hd⟩)
    · rintro ⟨h1, _⟩
      linarith
    · rintro ⟨h1, _⟩
      linarith

/-- C1: after teardown (detectLostFrames then the aggregation of
computeAndRecordQoE) of a receiver with expectedTotalFrames >= 1, every
frame number in [1, expectedTotalFrames] has exactly one record, is
classified into exactly one of on-time / late / lost, the three counters
sum to expectedTotalFrames, and effectiveError is the frame's stored
reconstruction error when received on time and the fixed penalty 1000
otherwise.  The arrival stream is assumed physically consistent: all
fragments of one frame carry that frame's mse, and no fragment is received
before its generation timestamp. -/
theorem claim1_frame_accounting (deadlineMs : ℚ) (N : Int) (hN : 1 ≤ N)
    (arrivals : List (XRHeader × ℚ)) (mseF : Int → ℚ)
    (hcons : ∀ p ∈ arrivals, p.1.mse = mseF p.1.frameNumber)
    (hclock : ∀ p ∈ arrivals, p.1.genTime ≤ p.2) :
    (∀ i : Int, 1 ≤ i → i ≤ N →
      ∃ s, findFrame (detectLostFrames N (runReceiver deadlineMs arrivals)) i
          = some s ∧
        (detectLostFrames N (runReceiver deadlineMs arrivals)).countP
          (fun p => decide (p.1 = i)) = 1 ∧
        ((classifiedOnTime s ∧ ¬classifiedLate s ∧ ¬classifiedLost s) ∨
         (¬classifiedOnTime s ∧ classifiedLate s ∧ ¬classifiedLost s) ∨
         (¬classifiedOnTime s ∧ ¬classifiedLate s ∧ classifiedLost s)) ∧
        (classifiedOnTime s → s.effectiveError = s.mse) ∧
        (¬classifiedOnTime s → s.effectiveError = 1000)) ∧
    (qoeTotals N
        (detectLostFrames N (runReceiver deadlineMs arrivals))).onTimeCount +
      (qoeTotals N
        (detectLostFrames N (runReceiver deadlineMs arrivals))).lateCount +
      (qoeTotals N
        (detectLostFrames N (runReceiver deadlineMs arrivals))).lostCount
      = N := by
  have hwf0 : ∀ k s, findFrame (runReceiver deadlineMs arrivals) k = some s →
      statsWellFormed s := by
    intro k s h
    exact (runReceiver_wellFormed deadlineMs arrivals mseF hcons hclock k s h).2
  have hwf : ∀ k s,
      findFrame (detectLostFrames N (runReceiver deadlineMs arrivals)) k =
        some s → statsWellFormed s :=
    detectLostFrames_wellFormed N _ hwf0
  have hnod : ((detectLostFrames N (runReceiver deadlineMs arrivals)).map
      Prod.fst).Nodup :=
    keys_nodup_detectLostFrames N _ (keys_nodup_runReceiver _ _)
  constructor
  · intro i h1 hi
    have hfind : ∃ s,
        findFrame (detectLostFrames N (runReceiver deadlineMs arrivals)) i =
          some s := by
      rw [detectLostFrames_find, if_pos ⟨h1, hi⟩]
      exact ⟨_, rfl⟩
    obtain ⟨s, hs⟩ := hfind
    refine ⟨s, hs, countP_key_eq_one _ i s hnod hs,
      classification_exclusive s, ?_, ?_⟩
    · intro hot
      exact ((hwf i s hs).1 hot.2).2
    · intro hnot
      cases ho : s.receivedOnTime
      · exact (hwf i s hs).2 ho
      · exact absurd ⟨((hwf i s hs).1 ho).1, ho⟩ hnot
  · rw [qoeTotals_sum3]
    omega

theorem claim1_frame_accounting_witness :
    (∀ i : Int, 1 ≤ i → i ≤ 1 →
      ∃ s, findFrame (detectLostFrames 1 (runReceiver 5 [])) i = some s ∧
        (detectLostFrames 1 (runReceiver 5 [])).countP
          (fun p => decide (p.1 = i)) = 1 ∧
        ((classifiedOnTime s ∧ ¬classifiedLate s ∧ ¬classifiedLost s) ∨
         (¬classifiedOnTime s ∧ classifiedLate s ∧ ¬classifiedLost s) ∨
         (¬classifiedOnTime s ∧ ¬classifiedLate s ∧ classifiedLost s)) ∧
        (classifiedOnTime s → s.effectiveError = s.mse) ∧
        (¬classifiedOnTime s → s.effectiveError = 1000)) ∧
    (qoeTotals 1 (detectLostFrames 1 (runReceiver 5 []))).onTimeCount +
      (qoeTotals 1 (detectLostFrames 1 (runReceiver 5 []))).lateCount +
      (qoeTotals 1 (detectLostFrames 1 (runReceiver 5 []))).lostCount = 1 :=
  claim1_frame_accounting 5 1 (by norm_num) [] (fun _ => 0)
    (by intro p hp; simp at hp) (by intro p hp; simp at hp)

/-! ### Claim C2 -/

theorem completeStats_spec (d rt : ℚ) (hdr : XRHeader)
    (b : ReceivedFrameStats) :
    (completeStats d rt hdr b).delay = (rt - hdr.genTime) * 1000 ∧
    ((completeStats d rt hdr b).receivedOnTime = true ↔
      (rt - hdr.genTime) * 1000 ≤ d) ∧
    (completeStats d rt hdr b).effectiveError =
      (if (rt - hdr.genTime) * 1000 ≤ d then hdr.mse else 1000) := by
  refine ⟨rfl, ?_, rfl⟩
  simp [completeStats]

/-- C2: when the arriving fragment makes fragmentsReceived equal the
header's totalFragments, the receiver sets delayMs =
(receiveTime - generationTimestamp) * 1000, classifies the frame on-time
iff delayMs <= deadlineMs (so equality is on-time), and sets
effectiveError to the fragment's mse if on-time, else the fixed
penalty 1000. -/
theorem claim2_completion_classification (deadlineMs recvTime : ℚ)
    (hdr : XRHeader) (m : FrameMap)
    (hpre : (findFrame m hdr.frameNumber = none ∧ hdr.totalFragments = 1) ∨
      (∃ s0, findFrame m hdr.frameNumber = some s0 ∧
        s0.fragmentsReceived + 1 = hdr.totalFragments)) :
    ∃ s, findFrame (processFrame deadlineMs recvTime hdr m) hdr.frameNumber =
        some s ∧
      s.delay = (recvTime - hdr.genTime) * 1000 ∧
      (s.receivedOnTime = true ↔ (recvTime - hdr.genTime) * 1000 ≤ deadlineMs) ∧
      ((recvTime - hdr.genTime) * 1000 = deadlineMs →
        s.receivedOnTime = true) ∧
      s.effectiveError =
        (if (recvTime - hdr.genTime) * 1000 ≤ deadlineMs then hdr.mse
         else 1000) := by
  rcases hpre with ⟨h0, h1⟩ | ⟨s0, h0, h1⟩
  · rw [processFrame_find_self_none _ _ _ _ h0]
    have hc : (freshStats hdr recvTime).fragmentsReceived =
        hdr.totalFragments := by
      simp [freshStats, h1]
    rw [if_pos hc]
    obtain ⟨hd, hiff, heff⟩ := completeStats_spec deadlineMs recvTime hdr
      (freshStats hdr recvTime)
    exact ⟨_, rfl, hd, hiff, fun he => hiff.mpr (le_of_eq he), heff⟩
  · rw [processFrame_find_self_some _ _ _ _ _ h0, if_pos h1]
    obtain ⟨hd, hiff, heff⟩ := completeStats_spec deadlineMs recvTime hdr
      { s0 with fragmentsReceived := s0.fragmentsReceived + 1 }
    exact ⟨_, rfl, hd, hiff, fun he => hiff.mpr (le_of_eq he), heff⟩

theorem claim2_completion_classification_witness :
    ∃ s, findFrame (processFrame 1 (1/1000)
        { frameNumber := 1, pcaComponents := 4, mse := 7, sizeBytes := 100,
          genTime := 0, fragIndex := 0, totalFragments := 1 } []) 1 = some s ∧
      s.delay = ((1 : ℚ)/1000 - 0) * 1000 ∧
      (s.receivedOnTime = true ↔ ((1 : ℚ)/1000 - 0) * 1000 ≤ 1) ∧
      (((1 : ℚ)/1000 - 0) * 1000 = 1 → s.receivedOnTime = true) ∧
      s.effectiveError =
        (if ((1 : ℚ)/1000 - 0) * 1000 ≤ 1 then (7 : ℚ) else 1000) :=
  claim2_completion_classification 1 (1/1000)
    { frameNumber := 1, pcaComponents := 4, mse := 7, sizeBytes := 100,
      genTime := 0, fragIndex := 0, totalFragments := 1 } []
    (Or.inl ⟨rfl, rfl⟩)

/-! ### Claim C3 -/

theorem qoeTotals_sumError (N : Int) (m : FrameMap) :
    (qoeTotals N m).sumError =
      ((statsSeq N m).map (fun s => s.effectiveError)).sum := by
  unfold qoeTotals
  rw [qoeFold_sumError]
  simp

theorem qoeTotals_receivedCount (N : Int) (m : FrameMap) :
    (qoeTotals N m).receivedCount =
      ((((statsSeq N m).filter
        (fun s => decide (0 ≤ s.delay))).length : ℕ) : Int) := by
  unfold qoeTotals
  rw [qoeFold_receivedCount]
  simp

theorem qoeTotals_sumDelay (N : Int) (m : FrameMap) :
    (qoeTotals N m).sumDelay =
      (((statsSeq N m).filter (fun s => decide (0 ≤ s.delay))).map
        (fun s => s.delay)).sum := by
  unfold qoeTotals
  rw [qoeFold_sumDelay]
  simp

/-- C3: with expectedTotalFrames >= 1, after teardown meanError equals the
sum of effectiveError over frame numbers 1..expectedTotalFrames divided by
expectedTotalFrames, and avgDelay equals the mean of delay over exactly
the records with delay >= 0 (received frames, late included), or 0 when
nothing was received. -/
theorem claim3_mean_error_avg_delay (N : Int) (hN : 1 ≤ N) (θ : ℚ)
    (m0 : FrameMap) :
    (qoeMetrics N θ (detectLostFrames N m0)).meanError =
      ((statsSeq N (detectLostFrames N m0)).map
        (fun s => s.effectiveError)).sum / (N : ℚ) ∧
    (qoeMetrics N θ (detectLostFrames N m0)).avgDelay =
      (if ((statsSeq N (detectLostFrames N m0)).filter
            (fun s => decide (0 ≤ s.delay))).length = 0 then 0
       else (((statsSeq N (detectLostFrames N m0)).filter
              (fun s => decide (0 ≤ s.delay))).map
            (fun s => s.delay)).sum /
          ((((statsSeq N (detectLostFrames N m0)).filter
              (fun s => decide (0 ≤ s.delay))).length : ℕ) : ℚ)) := by
  constructor
  · show (if 0 < N then (qoeTotals N (detectLostFrames N m0)).sumError /
        ((N : Int) : ℚ) else 0) = _
    rw [if_pos (by omega), qoeTotals_sumError]
  · show (if 0 < (qoeTotals N (detectLostFrames N m0)).receivedCount then
        (qoeTotals N (detectLostFrames N m0)).sumDelay /
          (((qoeTotals N (detectLostFrames N m0)).receivedCount : Int) : ℚ)
        else 0) = _
    rw [qoeTotals_receivedCount, qoeTotals_sumDelay]
    by_cases hlen : ((statsSeq N (detectLostFrames N m0)).filter
        (fun s => decide (0 ≤ s.delay))).length = 0
    · rw [if_neg (by omega), if_pos hlen]
    · rw [if_pos (by omega), if_neg hlen]
      norm_num

theorem claim3_mean_error_avg_delay_witness :
    (qoeMetrics 1 0 (detectLostFrames 1 [])).meanError =
      ((statsSeq 1 (detectLostFrames 1 [])).map
        (fun s => s.effectiveError)).sum / ((1 : Int) : ℚ) ∧
    (qoeMetrics 1 0 (detectLostFrames 1 [])).avgDelay =
      (if ((statsSeq 1 (detectLostFrames 1 [])).filter
            (fun s => decide (0 ≤ s.delay))).length = 0 then 0
       else (((statsSeq 1 (detectLostFrames 1 [])).filter
              (fun s => decide (0 ≤ s.delay))).map
            (fun s => s.delay)).sum /
          ((((statsSeq 1 (detectLostFrames 1 [])).filter
              (fun s => decide (0 ≤ s.delay))).length : ℕ) : ℚ)) :=
  claim3_mean_error_avg_delay 1 (by norm_num) 0 []

/-! ### Claim C10 -/

theorem isEmpty_false_of_ne_nil {α : Type} (l : List α) (h : l ≠ []) :
    l.isEmpty = false := by
  cases l with
  | nil => exact absurd rfl h
  | cons a t => rfl

theorem statsSeq_detectLost_congr (N : Int) (m m' : FrameMap)
    (h : ∀ i : Int, 1 ≤ i → i ≤ N → findFrame m' i = findFrame m i) :
    statsSeq N (detectLostFrames N m') = statsSeq N (detectLostFrames N m) := by
  unfold statsSeq
  apply List.map_congr_left
  intro j hj
  rw [List.mem_range] at hj
  have h1 : 1 ≤ (j : Int) + 1 := by omega
  have h2 : (j : Int) + 1 ≤ N := by omega
  rw [detectLostFrames_find, detectLostFrames_find, if_pos ⟨h1, h2⟩,
    if_pos ⟨h1, h2⟩, h _ h1 h2]

/-- C10: a fragment whose frameNumber lies outside [1, expectedTotalFrames]
is stored in the record map, but the per-user metrics after teardown and
the resulting global-counter updates are identical to those of a run that
never received it: every aggregation loop and the lost-frame synthesis only
visit frame numbers 1..expectedTotalFrames. -/
theorem claim10_out_of_range_isolated (deadlineMs recvTime : ℚ)
    (hdr : XRHeader) (N : Int) (hN : 1 ≤ N) (θ : ℚ) (m : FrameMap)
    (g : Globals) (q : Bool)
    (hout : hdr.frameNumber < 1 ∨ N < hdr.frameNumber) :
    (findFrame (processFrame deadlineMs recvTime hdr m)
        hdr.frameNumber).isSome = true ∧
    qoeMetrics N θ
        (detectLostFrames N (processFrame deadlineMs recvTime hdr m)) =
      qoeMetrics N θ (detectLostFrames N m) ∧
    (teardown ⟨processFrame deadlineMs recvTime hdr m, N, deadlineMs, θ, q⟩
        g).2 =
      (teardown ⟨m, N, deadlineMs, θ, q⟩ g).2 := by
  have hstored : (findFrame (processFrame deadlineMs recvTime hdr m)
      hdr.frameNumber).isSome = true := by
    cases h0 : findFrame m hdr.frameNumber with
    | none => rw [processFrame_find_self_none _ _ _ _ h0]; rfl
    | some s0 => rw [processFrame_find_self_some _ _ _ _ _ h0]; rfl
  have hseq : statsSeq N
      (detectLostFrames N (processFrame deadlineMs recvTime hdr m)) =
      statsSeq N (detectLostFrames N m) := by
    apply statsSeq_detectLost_congr
    intro i h1 h2
    apply processFrame_find_ne
    rcases hout with hout | hout <;> omega
  have htot : qoeTotals N
      (detectLostFrames N (processFrame deadlineMs recvTime hdr m)) =
      qoeTotals N (detectLostFrames N m) := by
    unfold qoeTotals
    rw [hseq]
  have hmtr : qoeMetrics N θ
      (detectLostFrames N (processFrame deadlineMs recvTime hdr m)) =
      qoeMetrics N θ (detectLostFrames N m) := by
    unfold qoeMetrics
    rw [htot]
  refine ⟨hstored, hmtr, ?_⟩
  have hne1 : (detectLostFrames N
      (processFrame deadlineMs recvTime hdr m)).isEmpty = false := by
    apply isEmpty_false_of_ne_nil
    apply findFrame_isSome_ne_nil _ 1
    rw [detectLostFrames_find, if_pos ⟨le_refl 1, hN⟩]
    rfl
  have hne2 : (detectLostFrames N m).isEmpty = false := by
    apply isEmpty_false_of_ne_nil
    apply findFrame_isSome_ne_nil _ 1
    rw [detectLostFrames_find, if_pos ⟨le_refl 1, hN⟩]
    rfl
  unfold teardown computeAndRecordQoE
  simp only [hne1, hne2, hmtr, Bool.false_eq_true, if_false]
  cases q <;> simp

theorem claim10_out_of_range_isolated_witness :
    (findFrame (processFrame 1 0
        { frameNumber := 5, pcaComponents := 0, mse := 2, sizeBytes := 10,
          genTime := 0, fragIndex := 0, totalFragments := 1 } [])
        (5 : Int)).isSome = true ∧
    qoeMetrics 1 0 (detectLostFrames 1 (processFrame 1 0
        { frameNumber := 5, pcaComponents := 0, mse := 2, sizeBytes := 10,
          genTime := 0, fragIndex := 0, totalFragments := 1 } [])) =
      qoeMetrics 1 0 (detectLostFrames 1 []) ∧
    (teardown ⟨processFrame 1 0
        { frameNumber := 5, pcaComponents := 0, mse := 2, sizeBytes := 10,
          genTime := 0, fragIndex := 0, totalFragments := 1 } [],
        1, 1, 0, false⟩ (initGlobals 1)).2 =
      (teardown ⟨([] : FrameMap), 1, 1, 0, false⟩ (initGlobals 1)).2 :=
  claim10_out_of_range_isolated 1 0
    { frameNumber := 5, pcaComponents := 0, mse := 2, sizeBytes := 10,
      genTime := 0, fragIndex := 0, totalFragments := 1 }
    1 (by norm_num) 0 [] (initGlobals 1) false (Or.inr (by norm_num))

/-! ### Claim C4 -/

/-- C4, evaluated at the failing input: a receiver whose teardown runs
twice (handleStopOperation and then finish both call detectLostFrames and
computeAndRecordQoE).  The qoeComputed guard keeps totalSumError,
totalExpectedFrames and totalOnTimeFrames folded exactly once, but the
totalSatisfiedUsers increment sits outside the guard, so the instance's
satisfied flag is counted twice: the fold is not idempotent for all four
contributions. -/
theorem claim4_double_teardown_eval :
    (teardown (teardown ⟨[], 1, 100, 0, false⟩ (initGlobals 1)).1
        (teardown ⟨[], 1, 100, 0, false⟩ (initGlobals 1)).2).2.totalSatisfiedUsers
      = 2 ∧
    (teardown ⟨[], 1, 100, 0, false⟩ (initGlobals 1)).2.totalSatisfiedUsers
      = 1 ∧
    (teardown (teardown ⟨[], 1, 100, 0, false⟩ (initGlobals 1)).1
        (teardown ⟨[], 1, 100, 0, false⟩ (initGlobals 1)).2).2.totalSumError
      = 1000 ∧
    (teardown (teardown ⟨[], 1, 100, 0, false⟩ (initGlobals 1)).1
        (teardown ⟨[], 1, 100, 0, false⟩ (initGlobals 1)).2).2.totalExpectedFrames
      = 1 ∧
    (teardown (teardown ⟨[], 1, 100, 0, false⟩ (initGlobals 1)).1
        (teardown ⟨[], 1, 100, 0, false⟩ (initGlobals 1)).2).2.totalOnTimeFrames
      = 0 ∧
    (teardown ⟨[], 1, 100, 0, false⟩ (initGlobals 1)).2.totalSumError
      = 1000 := by
  norm_num [teardown, computeAndRecordQoE, detectLostFrames, detectLostAux,
    findFrame, insertFrame, lostFrameStats, qoeMetrics, qoeTotals, statsSeq,
    qoeStep, initGlobals, defaultStats, List.range_succ]

/-! ### Claim C5 -/

theorem qoeMetrics_totalFrames (N : Int) (θ : ℚ) (m : FrameMap) :
    (qoeMetrics N θ m).totalFrames = N := rfl

theorem detectLostFrames_isEmpty_false (N : Int) (m : FrameMap)
    (hN : 1 ≤ N) : (detectLostFrames N m).isEmpty = false := by
  apply isEmpty_false_of_ne_nil
  apply findFrame_isSome_ne_nil _ 1
  rw [detectLostFrames_find, if_pos ⟨le_refl 1, hN⟩]
  rfl

/-- The global-counter effect of one teardown of a not-yet-folded
instance: the three guarded counters and the (unguarded) satisfied
counter each receive the instance's contribution. -/
theorem teardown_globals_of_not_computed (r : ReceiverInst) (g : Globals)
    (hq : r.qoeComputed = false) (hN : 1 ≤ r.expectedTotalFrames) :
    (teardown r g).2 = { g with
      totalSumError := g.totalSumError + (finalMetrics r).sumError
      totalExpectedFrames := g.totalExpectedFrames + r.expectedTotalFrames
      totalOnTimeFrames := g.totalOnTimeFrames + (finalMetrics r).onTimeCount
      totalSatisfiedUsers := g.totalSatisfiedUsers +
        (if (finalMetrics r).userSatisfied then 1 else 0) } := by
  have hne := detectLostFrames_isEmpty_false r.expectedTotalFrames
    r.receivedFrames hN
  unfold teardown computeAndRecordQoE
  simp only [hne, Bool.false_eq_true, if_false, hq, finalMetrics,
    qoeMetrics_totalFrames]
  by_cases hs : (qoeMetrics r.expectedTotalFrames r.reliabilityThreshold
      (detectLostFrames r.expectedTotalFrames r.receivedFrames)).userSatisfied
  · simp [hs]
  · simp [hs]

theorem finishReceiver_fields (r : ReceiverInst) (g : Globals)
    (hq : r.qoeComputed = false) (hN : 1 ≤ r.expectedTotalFrames) :
    (finishReceiver r g).2.1.totalSumError =
        g.totalSumError + (finalMetrics r).sumError ∧
    (finishReceiver r g).2.1.totalExpectedFrames =
        g.totalExpectedFrames + r.expectedTotalFrames ∧
    (finishReceiver r g).2.1.totalOnTimeFrames =
        g.totalOnTimeFrames + (finalMetrics r).onTimeCount ∧
    (finishReceiver r g).2.1.totalSatisfiedUsers =
        g.totalSatisfiedUsers +
          (if (finalMetrics r).userSatisfied then 1 else 0) ∧
    (finishReceiver r g).2.1.finishedCount = g.finishedCount + 1 ∧
    (finishReceiver r g).2.1.userCount = g.userCount := by
  simp only [finishReceiver]
  rw [teardown_globals_of_not_computed r g hq hN]
  by_cases hbar : ((g.finishedCount + 1 == g.userCount) &&
      !g.globalStatsPrinted) = true
  · simp [hbar]
  · simp [hbar]

theorem finishReceiver_summary_none (r : ReceiverInst) (g : Globals)
    (hq : r.qoeComputed = false) (hN : 1 ≤ r.expectedTotalFrames)
    (hbar : ¬ g.finishedCount + 1 = g.userCount) :
    (finishReceiver r g).2.2 = none ∧
    (finishReceiver r g).2.1.globalStatsPrinted = g.globalStatsPrinted := by
  simp only [finishReceiver]
  rw [teardown_globals_of_not_computed r g hq hN]
  have hb : ((g.finishedCount + 1 == g.userCount) &&
      !g.globalStatsPrinted) = false := by
    simp only [Bool.and_eq_false_iff]
    left
    simpa using hbar
  simp [hb]

theorem finishReceiver_summary_some (r : ReceiverInst) (g : Globals)
    (hq : r.qoeComputed = false) (hN : 1 ≤ r.expectedTotalFrames)
    (hbar : g.finishedCount + 1 = g.userCount)
    (hpr : g.globalStatsPrinted = false) :
    (finishReceiver r g).2.2 = some (summaryOf g [r]) := by
  simp only [finishReceiver]
  rw [teardown_globals_of_not_computed r g hq hN]
  have hb : ((g.finishedCount + 1 == g.userCount) &&
      !g.globalStatsPrinted) = true := by
    simp [hbar, hpr]
  simp only [hb, if_true]
  simp [summaryOf, contribSumError, contribExpected, contribOnTime,
    contribSatisfied]

theorem summaryOf_cons (g : Globals) (r : ReceiverInst)
    (rest : List ReceiverInst)
    (hq : r.qoeComputed = false) (hN : 1 ≤ r.expectedTotalFrames) :
    summaryOf (finishReceiver r g).2.1 rest = summaryOf g (r :: rest) := by
  obtain ⟨h1, h2, h3, h4, h5, h6⟩ := finishReceiver_fields r g hq hN
  unfold summaryOf
  rw [h1, h2, h3, h4, h6]
  simp only [contribSumError, contribExpected, contribOnTime,
    contribSatisfied, List.map_cons, List.sum_cons]
  congr 1 <;> ring_nf

theorem contribExpected_lower (rs : List ReceiverInst)
    (hq : ∀ r ∈ rs, 1 ≤ r.expectedTotalFrames) :
    (rs.length : Int) ≤ contribExpected rs := by
  induction rs with
  | nil => simp [contribExpected]
  | cons r rest ih =>
      simp only [contribExpected, List.map_cons, List.sum_cons,
        List.length_cons]
      have h1 := hq r (List.mem_cons_self _ _)
      have h2 := ih (fun x hx => hq x (List.mem_cons_of_mem _ hx))
      simp only [contribExpected] at h2
      push_cast
      omega

/-- The barrier fires exactly at the last finish: running finish on every
instance in sequence emits no summary until the final one, which emits the
summary of all contributions. -/
theorem runFinishes_emits_last (rs : List ReceiverInst) :
    ∀ g : Globals,
      (∀ r ∈ rs, r.qoeComputed = false ∧ 1 ≤ r.expectedTotalFrames) →
      g.globalStatsPrinted = false →
      g.finishedCount + (rs.length : Int) = g.userCount →
      rs ≠ [] →
      (runFinishes g rs).2 =
        List.replicate (rs.length - 1) none ++ [some (summaryOf g rs)] := by
  induction rs with
  | nil =>
      intro g _ _ _ hne
      exact absurd rfl hne
  | cons r rest ih =>
      intro g hq hpr hlen _
      have hqr := hq r (List.mem_cons_self _ _)
      by_cases hrest : rest = []
      · subst hrest
        have hbar : g.finishedCount + 1 = g.userCount := by
          simpa using hlen
        have hsome := finishReceiver_summary_some r g hqr.1 hqr.2 hbar hpr
        simp only [runFinishes, List.length_cons, List.length_nil]
        rw [hsome]
        rfl
      · have hrl : 1 ≤ rest.length := by
          cases rest with
          | nil => exact absurd rfl hrest
          | cons a t => simp
        have hbar : ¬ g.finishedCount + 1 = g.userCount := by
          intro h
          rw [← hlen] at h
          simp only [List.length_cons] at h
          push_cast at h
          omega
        obtain ⟨hnone, hprkeep⟩ :=
          finishReceiver_summary_none r g hqr.1 hqr.2 hbar
        obtain ⟨h1, h2, h3, h4, h5, h6⟩ :=
          finishReceiver_fields r g hqr.1 hqr.2
        have hihyp := ih (finishReceiver r g).2.1
          (fun x hx => hq x (List.mem_cons_of_mem _ hx))
          (by rw [hprkeep]; exact hpr)
          (by
            rw [h5, h6, ← hlen]
            simp only [List.length_cons]
            push_cast
            ring)
          hrest
        have hstep : (runFinishes g (r :: rest)).2 =
            (finishReceiver r g).2.2 ::
              (runFinishes (finishReceiver r g).2.1 rest).2 := rfl
        rw [hstep, hnone, hihyp, summaryOf_cons g r rest hqr.1 hqr.2]
        cases rest with
        | nil => exact absurd rfl hrest
        | cons q t =>
            simp only [List.length_cons, Nat.add_sub_cancel,
              List.replicate_succ, List.cons_append]

theorem contribSumError_perm (rs rs' : List ReceiverInst)
    (hp : rs'.Perm rs) : contribSumError rs' = contribSumError rs :=
  List.Perm.sum_eq (hp.map _)

theorem contribExpected_perm (rs rs' : List ReceiverInst)
    (hp : rs'.Perm rs) : contribExpected rs' = contribExpected rs :=
  List.Perm.sum_eq (hp.map _)

theorem contribOnTime_perm (rs rs' : List ReceiverInst)
    (hp : rs'.Perm rs) : contribOnTime rs' = contribOnTime rs :=
  List.Perm.sum_eq (hp.map _)

theorem contribSatisfied_perm (rs rs' : List ReceiverInst)
    (hp : rs'.Perm rs) : contribSatisfied rs' = contribSatisfied rs :=
  List.Perm.sum_eq (hp.map _)

theorem summaryOf_perm (g : Globals) (rs rs' : List ReceiverInst)
    (hp : rs'.Perm rs) : summaryOf g rs' = summaryOf g rs := by
  unfold summaryOf
  rw [contribSumError_perm _ _ hp, contribExpected_perm _ _ hp,
    contribOnTime_perm _ _ hp, contribSatisfied_perm _ _ hp]

/-- C5: starting from fresh global counters with userCount = number of
instances, running finish on every instance emits the global summary
exactly once (at the last finish, none before), with
globalDelayReliability = totalOnTimeFrames / totalExpectedFrames and
globalMeanError = totalSumError / totalExpectedFrames over the summed
contributions, and the emitted summary is the same for every order of the
instances. -/
theorem claim5_global_summary (rs : List ReceiverInst)
    (hq : ∀ r ∈ rs, r.qoeComputed = false ∧ 1 ≤ r.expectedTotalFrames)
    (hne : rs ≠ []) :
    (runFinishes (initGlobals (rs.length : Int)) rs).2 =
      List.replicate (rs.length - 1) none ++
        [some (summaryOf (initGlobals (rs.length : Int)) rs)] ∧
    (summaryOf (initGlobals (rs.length : Int)) rs).globalDelayReliability =
      ((contribOnTime rs : Int) : ℚ) / ((contribExpected rs : Int) : ℚ) ∧
    (summaryOf (initGlobals (rs.length : Int)) rs).globalAvgMeanError =
      contribSumError rs / ((contribExpected rs : Int) : ℚ) ∧
    (summaryOf (initGlobals (rs.length : Int)) rs).totalFrames =
      contribExpected rs ∧
    (summaryOf (initGlobals (rs.length : Int)) rs).totalOnTimeFrames =
      contribOnTime rs ∧
    (∀ rs' : List ReceiverInst, rs'.Perm rs →
      (runFinishes (initGlobals (rs.length : Int)) rs').2 =
        List.replicate (rs.length - 1) none ++
          [some (summaryOf (initGlobals (rs.length : Int)) rs)]) := by
  have hlen0 : (0 : Int) < rs.length := by
    cases rs with
    | nil => exact absurd rfl hne
    | cons a t => simp
  have hpos : 0 < (initGlobals (rs.length : Int)).totalExpectedFrames +
      contribExpected rs := by
    have := contribExpected_lower rs (fun r hr => (hq r hr).2)
    simp only [initGlobals]
    omega
  refine ⟨?_, ?_, ?_, by simp [summaryOf, initGlobals],
    by simp [summaryOf, initGlobals], ?_⟩
  · exact runFinishes_emits_last rs (initGlobals (rs.length : Int)) hq rfl
      (by simp [initGlobals]) hne
  · show (if 0 < (initGlobals (rs.length : Int)).totalExpectedFrames +
        contribExpected rs then _ else _) = _
    rw [if_pos hpos]
    simp [initGlobals]
  · show (if 0 < (initGlobals (rs.length : Int)).totalExpectedFrames +
        contribExpected rs then _ else _) = _
    rw [if_pos hpos]
    simp [initGlobals]
  · intro rs' hp
    have hlen' : rs'.length = rs.length := hp.length_eq
    have h := runFinishes_emits_last rs' (initGlobals (rs.length : Int))
      (fun x hx => hq x (hp.mem_iff.mp hx)) rfl
      (by simp [initGlobals, hlen']) (by
        intro h0
        rw [h0] at hlen'
        cases rs with
        | nil => exact hne rfl
        | cons a t => simp at hlen')
    rw [h, summaryOf_perm _ _ _ hp, hlen']

theorem claim5_global_summary_witness :
    (runFinishes (initGlobals (([(⟨[], 1, 100, 0, false⟩ : ReceiverInst)].length
        : ℕ) : Int)) [⟨[], 1, 100, 0, false⟩]).2 =
      List.replicate ([(⟨[], 1, 100, 0, false⟩ : ReceiverInst)].length - 1)
          none ++
        [some (summaryOf (initGlobals (([(⟨[], 1, 100, 0, false⟩ :
          ReceiverInst)].length : ℕ) : Int))
          [⟨[], 1, 100, 0, false⟩])] ∧
    (summaryOf (initGlobals (([(⟨[], 1, 100, 0, false⟩ :
        ReceiverInst)].length : ℕ) : Int))
        [⟨[], 1, 100, 0, false⟩]).globalDelayReliability =
      ((contribOnTime [⟨[], 1, 100, 0, false⟩] : Int) : ℚ) /
        ((contribExpected [⟨[], 1, 100, 0, false⟩] : Int) : ℚ) ∧
    (summaryOf (initGlobals (([(⟨[], 1, 100, 0, false⟩ :
        ReceiverInst)].length : ℕ) : Int))
        [⟨[], 1, 100, 0, false⟩]).globalAvgMeanError =
      contribSumError [⟨[], 1, 100, 0, false⟩] /
        ((contribExpected [⟨[], 1, 100, 0, false⟩] : Int) : ℚ) ∧
    (summaryOf (initGlobals (([(⟨[], 1, 100, 0, false⟩ :
        ReceiverInst)].length : ℕ) : Int))
        [⟨[], 1, 100, 0, false⟩]).totalFrames =
      contribExpected [⟨[], 1, 100, 0, false⟩] ∧
    (summaryOf (initGlobals (([(⟨[], 1, 100, 0, false⟩ :
        ReceiverInst)].length : ℕ) : Int))
        [⟨[], 1, 100, 0, false⟩]).totalOnTimeFrames =
      contribOnTime [⟨[], 1, 100, 0, false⟩] ∧
    (∀ rs' : List ReceiverInst,
      rs'.Perm [⟨[], 1, 100, 0, false⟩] →
      (runFinishes (initGlobals (([(⟨[], 1, 100, 0, false⟩ :
          ReceiverInst)].length : ℕ) : Int)) rs').2 =
        List.replicate ([(⟨[], 1, 100, 0, false⟩ :
            ReceiverInst)].length - 1) none ++
          [some (summaryOf (initGlobals (([(⟨[], 1, 100, 0, false⟩ :
            ReceiverInst)].length : ℕ) : Int))
            [⟨[], 1, 100, 0, false⟩])]) :=
  claim5_global_summary [⟨[], 1, 100, 0, false⟩]
    (by
      intro r hr
      simp only [List.mem_singleton] at hr
      subst hr
      exact ⟨rfl, le_refl 1⟩)
    (by simp)

/-! ### Claim C6: fragmentation -/

theorem fragSizesAux_length (m : ℕ) :
    ∀ (n r : ℕ), (fragSizesAux m r n).length = n := by
  intro n
  induction n with
  | zero => intro r; rfl
  | succ n ih =>
      intro r
      simp only [fragSizesAux, List.length_cons, ih]

theorem fragSizesAux_sum (m : ℕ) :
    ∀ (n r : ℕ), (fragSizesAux m r n).sum = min r (n * m) := by
  intro n
  induction n with
  | zero => intro r; simp [fragSizesAux]
  | succ n ih =>
      intro r
      simp only [fragSizesAux, List.sum_cons, ih]
      have hmul : (n + 1) * m = n * m + m := by ring
      omega

theorem fragSizesAux_get (m : ℕ) :
    ∀ (n r i : ℕ), i < n → (i + 1) * m ≤ r →
      (fragSizesAux m r n).get? i = some m := by
  intro n
  induction n with
  | zero => intro r i hi; omega
  | succ n ih =>
      intro r i hi hle
      cases i with
      | zero =>
          have hm : m ≤ r := by
            have : 1 * m = m := by ring
            omega
          simp [fragSizesAux, Nat.min_eq_right hm]
      | succ j =>
          have hj : j < n := by omega
          have hmr : m ≤ r := by
            have h1 : (j + 1 + 1) * m = (j + 1) * m + m := by ring
            have h2 : 0 ≤ (j + 1) * m := Nat.zero_le _
            omega
          have hle' : (j + 1) * m ≤ r - min r m := by
            rw [Nat.min_eq_right hmr]
            have h1 : (j + 1 + 1) * m = (j + 1) * m + m := by ring
            omega
          simp only [fragSizesAux, List.get?_cons_succ]
          exact ih (r - min r m) j hj hle'

theorem numFragments_eq (s m : ℕ) (hs : 1 ≤ s) (hm : 1 ≤ m) :
    numFragments s m = (s - 1) / m + 1 := by
  unfold numFragments
  have h1 : s + m - 1 = (s - 1) + m := by omega
  rw [h1, Nat.add_div_right _ (by omega)]

theorem numFragments_mul_ge (s m : ℕ) (hs : 1 ≤ s) (hm : 1 ≤ m) :
    s ≤ numFragments s m * m := by
  rw [numFragments_eq s m hs hm]
  have hq := Nat.div_add_mod (s - 1) m
  have hr : (s - 1) % m < m := Nat.mod_lt _ (by omega)
  have hmul : ((s - 1) / m + 1) * m = m * ((s - 1) / m) + m := by ring
  omega

theorem numFragments_pred_mul_lt (s m : ℕ) (hs : 1 ≤ s) (hm : 1 ≤ m) :
    (numFragments s m - 1) * m < s := by
  rw [numFragments_eq s m hs hm]
  rw [Nat.add_sub_cancel]
  have hle : (s - 1) / m * m ≤ s - 1 := Nat.div_mul_le_self _ _
  omega

theorem fragmentSizes_length (s m : ℕ) :
    (fragmentSizes s m).length = numFragments s m :=
  fragSizesAux_length m _ s

theorem fragmentSizes_sum (s m : ℕ) (hs : 1 ≤ s) (hm : 1 ≤ m) :
    (fragmentSizes s m).sum = s := by
  unfold fragmentSizes
  rw [fragSizesAux_sum]
  have := numFragments_mul_ge s m hs hm
  omega

theorem fragmentSizes_get (s m : ℕ) (hs : 1 ≤ s) (hm : 1 ≤ m)
    (i : ℕ) (hi : i + 1 < numFragments s m) :
    (fragmentSizes s m).get? i = some m := by
  unfold fragmentSizes
  apply fragSizesAux_get m _ s i (by omega)
  have hlt := numFragments_pred_mul_lt s m hs hm
  have hmono : (i + 1) * m ≤ (numFragments s m - 1) * m :=
    Nat.mul_le_mul_right m (by omega)
  omega

theorem exists_of_mem_zipWith {α β γ : Type} (f : α → β → γ) :
    ∀ (l1 : List α) (l2 : List β) (c : γ),
      c ∈ List.zipWith f l1 l2 → ∃ a b, a ∈ l1 ∧ b ∈ l2 ∧ c = f a b := by
  intro l1
  induction l1 with
  | nil => intro l2 c hc; simp at hc
  | cons a t ih =>
      intro l2 c hc
      cases l2 with
      | nil => simp at hc
      | cons b t2 =>
          simp only [List.zipWith_cons_cons, List.mem_cons] at hc
          rcases hc with hc | hc
          · exact ⟨a, b, by simp, by simp, hc⟩
          · obtain ⟨a', b', ha', hb', hc'⟩ := ih t2 c hc
            exact ⟨a', b', by simp [ha'], by simp [hb'], hc'⟩

/-- Every fragment sendPacket emits for one frame carries the frame's
metadata, the same totalFragments, and a fragIndex in range. -/
theorem frameFragments_fields (fi : FrameInfo) (mp : ℕ) (gt : ℚ) :
    ∀ p ∈ frameFragments fi mp gt,
      p.1.totalFragments = (numFragments fi.size_bytes.toNat mp : Int) ∧
      p.1.frameNumber = fi.frame_number ∧
      p.1.mse = fi.mse ∧
      p.1.sizeBytes = fi.size_bytes ∧
      p.1.genTime = gt ∧
      0 ≤ p.1.fragIndex ∧
      p.1.fragIndex < (numFragments fi.size_bytes.toNat mp : Int) := by
  intro p hp
  unfold frameFragments at hp
  obtain ⟨i, sz, hi, _, hpf⟩ := exists_of_mem_zipWith _ _ _ _ hp
  rw [List.mem_range] at hi
  subst hpf
  refine ⟨rfl, rfl, rfl, rfl, rfl, ?_, ?_⟩
  · have h0 : (0 : Int) ≤ (i : Int) := Int.natCast_nonneg i
    exact h0
  · have h1 : (i : Int) < ((numFragments fi.size_bytes.toNat mp : ℕ) : Int) := by
      exact_mod_cast hi
    exact h1

/-- Receiving three fragments of one frame (any contents, any times), all
declaring totalFragments = 3, leaves a complete record: fragmentsReceived =
totalFragments = 3. -/
theorem runReceiver_three_fragments (d : ℚ) (f : Int)
    (a b c : XRHeader) (ta tb tc : ℚ)
    (haf : a.frameNumber = f) (hbf : b.frameNumber = f)
    (hcf : c.frameNumber = f)
    (hat : a.totalFragments = 3) (hbt : b.totalFragments = 3)
    (hct : c.totalFragments = 3) :
    ∃ s, findFrame (runReceiver d [(a, ta), (b, tb), (c, tc)]) f = some s ∧
      s.fragmentsReceived = 3 ∧ s.totalFragments = 3 ∧
      s.fragmentsReceived = s.totalFragments := by
  have hf1 : findFrame (processFrame d ta a []) a.frameNumber =
      some (freshStats a ta) := by
    rw [processFrame_find_self_none d ta a [] rfl,
      if_neg (by simp [freshStats, hat])]
  have hab : b.frameNumber = a.frameNumber := hbf.trans haf.symm
  have hfb : findFrame (processFrame d ta a []) b.frameNumber =
      some (freshStats a ta) := by rw [hab]; exact hf1
  have hf2 : findFrame (processFrame d tb b (processFrame d ta a []))
      b.frameNumber = some { freshStats a ta with
        fragmentsReceived := (freshStats a ta).fragmentsReceived + 1 } := by
    rw [processFrame_find_self_some d tb b _ _ hfb,
      if_neg (by simp [freshStats, hbt])]
  have hbc : c.frameNumber = b.frameNumber := hcf.trans hbf.symm
  have hfc : findFrame (processFrame d tb b (processFrame d ta a []))
      c.frameNumber = some { freshStats a ta with
        fragmentsReceived := (freshStats a ta).fragmentsReceived + 1 } := by
    rw [hbc]; exact hf2
  have hf3 : findFrame (processFrame d tc c (processFrame d tb b
      (processFrame d ta a []))) c.frameNumber =
      some (completeStats d tc c
        { freshStats a ta with
          fragmentsReceived := (freshStats a ta).fragmentsReceived + 1 + 1 }) := by
    rw [processFrame_find_self_some d tc c _ _ hfc,
      if_pos (by simp [freshStats, hct])]
  refine ⟨completeStats d tc c
    { freshStats a ta with
      fragmentsReceived := (freshStats a ta).fragmentsReceived + 1 + 1 },
    ?_, ?_, ?_, ?_⟩
  · show findFrame (processFrame d tc c (processFrame d tb b
      (processFrame d ta a []))) f = _
    rw [← hcf]
    exact hf3
  · simp [completeStats, freshStats]
  · simp [completeStats, freshStats, hat]
  · simp [completeStats, freshStats, hat]

/-- C6: sendPacket fragmentation and reassembly round trip.  For any frame
with sizeBytes >= 1 and maxPayloadSize >= 1: exactly
ceil(sizeBytes/maxPayloadSize) fragments, all but possibly the last of
payload exactly maxPayloadSize, payload sizes summing to sizeBytes, and
every emitted fragment carrying the same totalFragments with fragIndex in
[0, totalFragments).  Concretely, sizeBytes = 150000 with maxPayloadSize =
60000 gives 3 fragments of sizes 60000, 60000, 30000, and a receiver that
gets all 3 in any arrival order marks the frame complete with
fragmentsReceived = totalFragments = 3. -/
theorem claim6_fragmentation_roundtrip (s m : ℕ) (hs : 1 ≤ s) (hm : 1 ≤ m)
    (fi : FrameInfo) (gt : ℚ) :
    (fragmentSizes s m).length = numFragments s m ∧
    (∀ i : ℕ, i + 1 < numFragments s m →
      (fragmentSizes s m).get? i = some m) ∧
    (fragmentSizes s m).sum = s ∧
    (∀ p ∈ frameFragments fi m gt,
      p.1.totalFragments = (numFragments fi.size_bytes.toNat m : Int) ∧
      p.1.frameNumber = fi.frame_number ∧
      0 ≤ p.1.fragIndex ∧
      p.1.fragIndex < (numFragments fi.size_bytes.toNat m : Int)) ∧
    fragmentSizes 150000 60000 = [60000, 60000, 30000] ∧
    numFragments 150000 60000 = 3 ∧
    (∀ l : List (XRHeader × ℚ),
      l.Perm [({ frameNumber := 1, pcaComponents := 8, mse := 2,
                 sizeBytes := 150000, genTime := 0, fragIndex := 0,
                 totalFragments := 3 }, 0),
              ({ frameNumber := 1, pcaComponents := 8, mse := 2,
                 sizeBytes := 150000, genTime := 0, fragIndex := 1,
                 totalFragments := 3 }, 0),
              ({ frameNumber := 1, pcaComponents := 8, mse := 2,
                 sizeBytes := 150000, genTime := 0, fragIndex := 2,
                 totalFragments := 3 }, 0)] →
      ∃ st, findFrame (runReceiver 5 l) 1 = some st ∧
        st.fragmentsReceived = 3 ∧ st.totalFragments = 3 ∧
        st.fragmentsReceived = st.totalFragments) := by
  refine ⟨fragmentSizes_length s m, fragmentSizes_get s m hs hm,
    fragmentSizes_sum s m hs hm, ?_, by decide, by decide, ?_⟩
  · intro p hp
    obtain ⟨h1, h2, _, _, _, h6, h7⟩ := frameFragments_fields fi m gt p hp
    exact ⟨h1, h2, h6, h7⟩
  · intro l hp
    have hlen : l.length = 3 := hp.length_eq
    have hmem : ∀ p ∈ l, (p : XRHeader × ℚ).1.frameNumber = 1 ∧
        p.1.totalFragments = 3 := by
      intro p hpl
      have := hp.subset hpl
      simp only [List.mem_cons, List.not_mem_nil, or_false] at this
      rcases this with h | h | h <;> subst h <;> exact ⟨rfl, rfl⟩
    match l, hlen with
    | [p1, p2, p3], _ =>
        obtain ⟨h1f, h1t⟩ := hmem p1 (by simp)
        obtain ⟨h2f, h2t⟩ := hmem p2 (by simp)
        obtain ⟨h3f, h3t⟩ := hmem p3 (by simp)
        exact runReceiver_three_fragments 5 1 p1.1 p2.1 p3.1 p1.2 p2.2 p3.2
          h1f h2f h3f h1t h2t h3t

theorem claim6_fragmentation_roundtrip_witness :
    (fragmentSizes 150000 60000).length = numFragments 150000 60000 ∧
    (∀ i : ℕ, i + 1 < numFragments 150000 60000 →
      (fragmentSizes 150000 60000).get? i = some 60000) ∧
    (fragmentSizes 150000 60000).sum = 150000 ∧
    (∀ p ∈ frameFragments ⟨1, 8, 2, 150000⟩ 60000 0,
      p.1.totalFragments =
        (numFragments (Int.toNat (150000 : Int)) 60000 : Int) ∧
      p.1.frameNumber = 1 ∧
      0 ≤ p.1.fragIndex ∧
      p.1.fragIndex <
        (numFragments (Int.toNat (150000 : Int)) 60000 : Int)) ∧
    fragmentSizes 150000 60000 = [60000, 60000, 30000] ∧
    numFragments 150000 60000 = 3 ∧
    (∀ l : List (XRHeader × ℚ),
      l.Perm [({ frameNumber := 1, pcaComponents := 8, mse := 2,
                 sizeBytes := 150000, genTime := 0, fragIndex := 0,
                 totalFragments := 3 }, 0),
              ({ frameNumber := 1, pcaComponents := 8, mse := 2,
                 sizeBytes := 150000, genTime := 0, fragIndex := 1,
                 totalFragments := 3 }, 0),
              ({ frameNumber := 1, pcaComponents := 8, mse := 2,
                 sizeBytes := 150000, genTime := 0, fragIndex := 2,
                 totalFragments := 3 }, 0)] →
      ∃ st, findFrame (runReceiver 5 l) 1 = some st ∧
        st.fragmentsReceived = 3 ∧ st.totalFragments = 3 ∧
        st.fragmentsReceived = st.totalFragments) :=
  claim6_fragmentation_roundtrip 150000 60000 (by norm_num) (by norm_num)
    ⟨1, 8, 2, 150000⟩ 0

/-! ### Claim C7 -/

/-- C7 as stated is false: a duplicate fragment for an already-complete
frame (totalFragments = 1, same fragment received twice) drives
fragmentsReceived to 2 > totalFragments = 1, because processFrame
increments the counter for every arriving fragment unconditionally. -/
theorem claim7_counterexample :
    ((findFrame (processFrame 100 0
        { frameNumber := 1, pcaComponents := 0, mse := 0, sizeBytes := 10,
          genTime := 0, fragIndex := 0, totalFragments := 1 }
        (processFrame 100 0
          { frameNumber := 1, pcaComponents := 0, mse := 0, sizeBytes := 10,
            genTime := 0, fragIndex := 0, totalFragments := 1 } [])) 1).getD
        defaultStats).totalFragments <
    ((findFrame (processFrame 100 0
        { frameNumber := 1, pcaComponents := 0, mse := 0, sizeBytes := 10,
          genTime := 0, fragIndex := 0, totalFragments := 1 }
        (processFrame 100 0
          { frameNumber := 1, pcaComponents := 0, mse := 0, sizeBytes := 10,
            genTime := 0, fragIndex := 0, totalFragments := 1 } [])) 1).getD
        defaultStats).fragmentsReceived := by
  norm_num [processFrame, findFrame, insertFrame, freshStats, completeStats,
    defaultStats]

/-- Effect of processFrame at the arriving frame number on the fragment
counter and the stored totalFragments. -/
theorem processFrame_count_self (d rt : ℚ) (hdr : XRHeader) (m : FrameMap) :
    ∃ s', findFrame (processFrame d rt hdr m) hdr.frameNumber = some s' ∧
      s'.fragmentsReceived =
        ((findFrame m hdr.frameNumber).map
          (fun s0 => s0.fragmentsReceived)).getD 0 + 1 ∧
      s'.totalFragments =
        ((findFrame m hdr.frameNumber).map
          (fun s0 => s0.totalFragments)).getD hdr.totalFragments := by
  cases h0 : findFrame m hdr.frameNumber with
  | none =>
      rw [processFrame_find_self_none _ _ _ _ h0]
      by_cases hc : (freshStats hdr rt).fragmentsReceived = hdr.totalFragments
      · rw [if_pos hc]
        exact ⟨_, rfl, by simp [h0, completeStats, freshStats],
          by simp [h0, completeStats, freshStats]⟩
      · rw [if_neg hc]
        exact ⟨_, rfl, by simp [h0, freshStats], by simp [h0, freshStats]⟩
  | some s0 =>
      rw [processFrame_find_self_some _ _ _ _ _ h0]
      by_cases hc : s0.fragmentsReceived + 1 = hdr.totalFragments
      · rw [if_pos hc]
        exact ⟨_, rfl, by simp [h0, completeStats], by simp [h0, completeStats]⟩
      · rw [if_neg hc]
        exact ⟨_, rfl, by simp [h0], by simp [h0]⟩

/-- Through any receiver run, the record of frame f counts exactly the
arrivals for f on top of what the starting map held, and keeps the
totalFragments it was created with (assumed consistent across the
arrivals for f). -/
theorem processFold_count (d : ℚ) (f T : Int) :
    ∀ (l : List (XRHeader × ℚ)) (m : FrameMap),
      (∀ p ∈ l, p.1.frameNumber = f → p.1.totalFragments = T) →
      (∀ s0, findFrame m f = some s0 → s0.totalFragments = T) →
      ∀ s, findFrame (l.foldl (fun acc p => processFrame d p.2 p.1 acc) m) f
          = some s →
        s.totalFragments = T ∧
        s.fragmentsReceived =
          ((findFrame m f).map (fun s0 => s0.fragmentsReceived)).getD 0 +
          ((l.countP (fun p => decide (p.1.frameNumber = f)) : ℕ) : Int) := by
  intro l
  induction l with
  | nil =>
      intro m hcons hinv s hfind
      refine ⟨hinv s hfind, ?_⟩
      simp only [List.foldl_nil] at hfind
      rw [hfind]
      simp
  | cons p rest ih =>
      intro m hcons hinv s hfind
      simp only [List.foldl_cons] at hfind
      by_cases hpf : p.1.frameNumber = f
      · obtain ⟨s', hs', hcount', htot'⟩ := processFrame_count_self d p.2 p.1 m
        rw [hpf] at hs' hcount' htot'
        have hinv' : ∀ s0,
            findFrame (processFrame d p.2 p.1 m) f = some s0 →
            s0.totalFragments = T := by
          intro s0 h0
          rw [hs'] at h0
          obtain rfl := Option.some.inj h0
          rw [htot']
          cases hm0 : findFrame m f with
          | none => simpa using hcons p (List.mem_cons_self _ _) hpf
          | some sb => simpa using hinv sb hm0
        obtain ⟨ht, hc⟩ := ih (processFrame d p.2 p.1 m)
          (fun q hq => hcons q (List.mem_cons_of_mem _ hq)) hinv' s hfind
        refine ⟨ht, ?_⟩
        have hcp : (p :: rest).countP
            (fun q => decide (q.1.frameNumber = f)) =
            rest.countP (fun q => decide (q.1.frameNumber = f)) + 1 := by
          rw [List.countP_cons]
          simp [hpf]
        rw [hc, hs', hcp]
        have hred : (Option.map (fun s0 => s0.fragmentsReceived)
            (some s')).getD 0 = s'.fragmentsReceived := rfl
        rw [hred, hcount']
        push_cast
        ring
      · have hne : findFrame (processFrame d p.2 p.1 m) f = findFrame m f :=
          processFrame_find_ne _ _ _ _ _ (Ne.symm hpf)
        obtain ⟨ht, hc⟩ := ih (processFrame d p.2 p.1 m)
          (fun q hq => hcons q (List.mem_cons_of_mem _ hq))
          (by intro s0 h0; rw [hne] at h0; exact hinv s0 h0) s hfind
        refine ⟨ht, ?_⟩
        rw [hc, hne, List.countP_cons]
        simp [hpf]

/-- C7 amended: fragmentsReceived equals the number of fragments processed
for the frame, so it stays within totalFragments exactly when at most
totalFragments fragments arrive for that frame (all declaring the same
totalFragments); duplicate or extra fragments push it past totalFragments
(see the counterexample). -/
theorem claim7_amended (d : ℚ) (arrivals : List (XRHeader × ℚ)) (f T : Int)
    (hcons : ∀ p ∈ arrivals, p.1.frameNumber = f → p.1.totalFragments = T)
    (hcount : ((arrivals.countP
      (fun p => decide (p.1.frameNumber = f)) : ℕ) : Int) ≤ T)
    (s : ReceivedFrameStats)
    (hfind : findFrame (runReceiver d arrivals) f = some s) :
    s.fragmentsReceived ≤ s.totalFragments := by
  obtain ⟨ht, hc⟩ := processFold_count d f T arrivals [] hcons
    (by intro s0 h0; simp [findFrame] at h0) s hfind
  have h0 : ((findFrame ([] : FrameMap) f).map
      (fun s0 => s0.fragmentsReceived)).getD 0 = 0 := rfl
  rw [ht, hc, h0]
  omega

theorem claim7_amended_witness :
    ((findFrame (runReceiver 100
        [({ frameNumber := 1, pcaComponents := 0, mse := 0, sizeBytes := 10,
            genTime := 0, fragIndex := 0, totalFragments := 2 }, 0)])
        1).getD defaultStats).fragmentsReceived ≤
    ((findFrame (runReceiver 100
        [({ frameNumber := 1, pcaComponents := 0, mse := 0, sizeBytes := 10,
            genTime := 0, fragIndex := 0, totalFragments := 2 }, 0)])
        1).getD defaultStats).totalFragments := by
  have hfind : findFrame (runReceiver 100
      [({ frameNumber := 1, pcaComponents := 0, mse := 0, sizeBytes := 10,
          genTime := 0, fragIndex := 0, totalFragments := 2 }, 0)]) 1 =
      some (freshStats
        { frameNumber := 1, pcaComponents := 0, mse := 0, sizeBytes := 10,
          genTime := 0, fragIndex := 0, totalFragments := 2 } 0) := by
    norm_num [runReceiver, processFrame, findFrame, insertFrame, freshStats]
  rw [hfind]
  simp only [Option.getD_some]
  exact claim7_amended 100
    [({ frameNumber := 1, pcaComponents := 0, mse := 0, sizeBytes := 10,
        genTime := 0, fragIndex := 0, totalFragments := 2 }, 0)] 1 2
    (by
      intro p hp _
      simp only [List.mem_singleton] at hp
      subst hp
      rfl)
    (by norm_num [List.countP_cons])
    _ hfind

/-! ### Claim C8 -/

theorem tgnLoop_congr (minv maxv : ℚ) :
    ∀ (fuel : ℕ) (x : ℚ) (idx : ℕ) (d1 d2 : ℕ → ℚ),
      idx + fuel = 1001 →
      (∀ i : ℕ, i ≤ 1000 → d1 i = d2 i) →
      tgnLoop d1 minv maxv x fuel idx = tgnLoop d2 minv maxv x fuel idx := by
  intro fuel
  induction fuel with
  | zero => intro x idx d1 d2 _ _; rfl
  | succ fuel ih =>
      intro x idx d1 d2 hidx hag
      simp only [tgnLoop]
      by_cases hc : x < minv ∨ x > maxv
      · rw [if_pos hc, if_pos hc, hag idx (by omega)]
        exact ih (d2 idx) (idx + 1) d1 d2 (by omega) hag
      · rw [if_neg hc, if_neg hc]

/-- C8: tran_gau_num always terminates with a sample inside
[jitterMin, jitterMax] (the hard clamp guarantees the range whatever the
Gaussian draws produce), the loop consumes at most the first 1001 draws
(bounded redraws), and in particular for jitterMin = -1, jitterMax = 1 the
sample lies in [-1, 1] for every draw stream. -/
theorem claim8_jitter_clamp (draws : ℕ → ℚ) (minv maxv : ℚ)
    (h : minv ≤ maxv) :
    (minv ≤ tran_gau_num draws minv maxv ∧
      tran_gau_num draws minv maxv ≤ maxv) ∧
    (∀ d2 : ℕ → ℚ, (∀ i : ℕ, i ≤ 1000 → draws i = d2 i) →
      tran_gau_num draws minv maxv = tran_gau_num d2 minv maxv) ∧
    (minv = -1 → maxv = 1 →
      -1 ≤ tran_gau_num draws minv maxv ∧
        tran_gau_num draws minv maxv ≤ 1) := by
  have hrange : minv ≤ tran_gau_num draws minv maxv ∧
      tran_gau_num draws minv maxv ≤ maxv := by
    simp only [tran_gau_num]
    split_ifs <;> constructor <;> linarith
  refine ⟨hrange, ?_, ?_⟩
  · intro d2 hag
    simp only [tran_gau_num]
    rw [tgnLoop_congr minv maxv 1000 (draws 0) 1 draws d2 (by omega) hag,
      hag 0 (by omega)]
  · intro hmin hmax
    constructor
    · rw [← hmin]; exact hrange.1
    · rw [← hmax]; exact hrange.2

theorem claim8_jitter_clamp_witness :
    (((-1 : ℚ) ≤ tran_gau_num (fun _ => 5) (-1) 1 ∧
      tran_gau_num (fun _ => 5) (-1) 1 ≤ 1) ∧
    (∀ d2 : ℕ → ℚ, (∀ i : ℕ, i ≤ 1000 → (fun _ => (5 : ℚ)) i = d2 i) →
      tran_gau_num (fun _ => 5) (-1) 1 = tran_gau_num d2 (-1) 1) ∧
    ((-1 : ℚ) = -1 → (1 : ℚ) = 1 →
      -1 ≤ tran_gau_num (fun _ => 5) (-1) 1 ∧
        tran_gau_num (fun _ => 5) (-1) 1 ≤ 1)) :=
  claim8_jitter_clamp (fun _ => 5) (-1) 1 (by norm_num)

/-! ### Claim C9 -/

/-- C9 as stated is false: with the socket closed, sendPacket drops the
attempt without advancing frame_number, so the very same frame IS
transmitted on a later timer firing once the socket is open — the dropped
frame's transmission is retried, not skipped.  Concretely: the catalog
holds one frame, the first firing (socket closed) emits nothing and leaves
frame_number = 0, the timer loop continues, and a later firing (socket
open) emits that frame's fragment. -/
theorem claim9_counterexample :
    (sendPacket [⟨1, 4, 2, 500⟩] 1000 0 ⟨0, false⟩).2 = [] ∧
    (sendPacket [⟨1, 4, 2, 500⟩] 1000 0 ⟨0, false⟩).1.frame_number = 0 ∧
    schedulesNext [⟨1, 4, 2, 500⟩]
      (sendPacket [⟨1, 4, 2, 500⟩] 1000 0 ⟨0, false⟩).1 = true ∧
    ((sendPacket [⟨1, 4, 2, 500⟩] 1000 0 ⟨0, true⟩).2.map
      (fun p => p.1.frameNumber)) = [1] := by
  refine ⟨rfl, rfl, rfl, ?_⟩
  decide

/-- C9 amended: with the socket closed at send time the generator drops
the whole send attempt (no fragments emitted) without advancing
frame_number, and the timer loop continues; consequently the same frame is
attempted again at the next firing, and is emitted then if the socket is
open. -/
theorem claim9_amended (frames : List FrameInfo) (mp : ℕ) (gt gt2 : ℚ)
    (st : GeneratorState) (hclosed : st.socketOpen = false)
    (fi : FrameInfo) (hfi : frames.get? st.frame_number = some fi) :
    (sendPacket frames mp gt st).2 = [] ∧
    (sendPacket frames mp gt st).1 = st ∧
    schedulesNext frames (sendPacket frames mp gt st).1 = true ∧
    (sendPacket frames mp gt2 ⟨st.frame_number, true⟩).2 =
      frameFragments fi mp gt2 ∧
    (∀ p ∈ (sendPacket frames mp gt2 ⟨st.frame_number, true⟩).2,
      p.1.frameNumber = fi.frame_number) := by
  have hdrop : sendPacket frames mp gt st = (st, []) := by
    unfold sendPacket
    rw [hfi]
    simp [hclosed]
  have hsend : sendPacket frames mp gt2 ⟨st.frame_number, true⟩ =
      (⟨st.frame_number + 1, true⟩, frameFragments fi mp gt2) := by
    unfold sendPacket
    rw [show (⟨st.frame_number, true⟩ : GeneratorState).frame_number =
      st.frame_number from rfl, hfi]
    rfl
  have hlt : st.frame_number < frames.length := by
    rcases List.get?_eq_some.mp hfi with ⟨hl, _⟩
    exact hl
  refine ⟨by rw [hdrop], by rw [hdrop], ?_, by rw [hsend], ?_⟩
  · rw [hdrop]
    simp only [schedulesNext]
    exact decide_eq_true hlt
  · intro p hp
    rw [hsend] at hp
    exact (frameFragments_fields fi mp gt2 p hp).2.1

theorem claim9_amended_witness :
    (sendPacket [⟨1, 4, 2, 500⟩] 1000 0 ⟨0, false⟩).2 = [] ∧
    (sendPacket [⟨1, 4, 2, 500⟩] 1000 0 ⟨0, false⟩).1 =
      (⟨0, false⟩ : GeneratorState) ∧
    schedulesNext [⟨1, 4, 2, 500⟩]
      (sendPacket [⟨1, 4, 2, 500⟩] 1000 0 ⟨0, false⟩).1 = true ∧
    (sendPacket [⟨1, 4, 2, 500⟩] 1000 7
      ⟨(⟨0, false⟩ : GeneratorState).frame_number, true⟩).2 =
      frameFragments ⟨1, 4, 2, 500⟩ 1000 7 ∧
    (∀ p ∈ (sendPacket [⟨1, 4, 2, 500⟩] 1000 7
        ⟨(⟨0, false⟩ : GeneratorState).frame_number, true⟩).2,
      p.1.frameNumber = (⟨1, 4, 2, 500⟩ : FrameInfo).frame_number) :=
  claim9_amended [⟨1, 4, 2, 500⟩] 1000 0 7 ⟨0, false⟩ rfl ⟨1, 4, 2, 500⟩ rfl

end NASCX
